import Mathlib

/-!
Verification of the `harbor` thread pool (src/src/lib.rs) against its
natural-language specification.

The pool is embedded as a pure transition system.  `Uuid` values are modelled
as natural numbers and `Uuid::new_v4()` as a fresh-identifier supply (the
`nextId` counter of the pool state).  Job payloads
(`FnOnce() -> Result<String, String>`, assumed non-panicking and total) are
modelled by the outcome they return.  The mutex-guarded critical sections of
the source become atomic steps of the transition relation; mutex acquisition
outcomes are modelled explicitly where a claim is about lock failure.
-/

namespace Harbor

/-- Lifecycle state of a job (enum `JobStatus`, src/src/lib.rs lines 38-43). -/
inductive JobStatus where
  | Pending
  | Processing
  | Completed
  | Failed (reason : String)
deriving DecidableEq, Repr

/-- Metadata stored per job (struct `JobMetadata`, lines 45-49). -/
structure JobMetadata where
  state : JobStatus
  result : Option String
deriving DecidableEq, Repr

instance : DecidableEq (Except String String) := fun a b =>
  match a, b with
  | Except.ok x, Except.ok y =>
      if h : x = y then Decidable.isTrue (by rw [h])
      else Decidable.isFalse (fun hc => h (Except.ok.inj hc))
  | Except.ok _, Except.error _ => Decidable.isFalse (fun hc => Except.noConfusion hc)
  | Except.error _, Except.ok _ => Decidable.isFalse (fun hc => Except.noConfusion hc)
  | Except.error x, Except.error y =>
      if h : x = y then Decidable.isTrue (by rw [h])
      else Decidable.isFalse (fun hc => h (Except.error.inj hc))

/-- A job descriptor (struct `Job`, lines 51-54).  The payload is modelled by
the `Result<String, String>` outcome it produces: `Except.ok s` for `Ok(s)`
and `Except.error e` for `Err(e)`. -/
structure Job where
  id : Nat
  payload : Except String String
deriving DecidableEq, Repr

/-- The Job Registry: the `HashMap<Uuid, JobMetadata>` of line 26, modelled as
an association list whose keys are the modelled `Uuid`s. -/
abbrev Registry := List (Nat × JobMetadata)

/-- `HashMap::get` (line 157): the binding of `id`, if any. -/
def regFind : Registry → Nat → Option JobMetadata
  | [], _ => none
  | (k, m) :: rest, id => if k = id then some m else regFind rest id

/-- `HashMap::insert` (line 143): add the binding, replacing any existing one. -/
def regInsert (r : Registry) (id : Nat) (m : JobMetadata) : Registry :=
  (id, m) :: r.filter (fun p => p.1 != id)

/-- `HashMap::get_mut` followed by a field update inside
`if let Some(metadata) = ...` (lines 208-210 and 217-236): updates the bound
metadata when the key is present and is a no-op when it is absent. -/
def regUpdate (r : Registry) (id : Nat) (f : JobMetadata → JobMetadata) : Registry :=
  r.map (fun p => if p.1 = id then (p.1, f p.2) else p)

/-- The registry insert performed by `ThreadPool::execute` (lines 135-144):
a fresh entry `{ state: Pending, result: None }`. -/
def executeInsert (r : Registry) (id : Nat) : Registry :=
  regInsert r id ⟨JobStatus.Pending, none⟩

/-- The worker's pre-execution registry update (lines 206-211): set the
claimed job's state to `Processing`, leaving `result` untouched. -/
def preUpdate (r : Registry) (id : Nat) : Registry :=
  regUpdate r id (fun m => { m with state := JobStatus.Processing })

/-- The worker's post-execution registry update (lines 215-237): on `Ok(s)`
set state `Completed` and result `Some(s)`; on `Err(e)` set state `Failed(e)`
and result `Some(e)`. -/
def postUpdate (r : Registry) (id : Nat) (result : Except String String) : Registry :=
  regUpdate r id (fun _ =>
    match result with
    | Except.ok s => ⟨JobStatus.Completed, some s⟩
    | Except.error e => ⟨JobStatus.Failed e, some e⟩)

/-- Observable state of one worker thread's loop (lines 193-245): waiting on
`recv`, holding a claimed job before the pre-execution update, having run the
payload but not yet recorded the outcome, or exited the loop. -/
inductive WorkerState where
  | idle
  | claimed (job : Job)
  | ran (id : Nat) (result : Except String String)
  | dead
deriving DecidableEq, Repr

/-- True while the channel still has a live consumer: the worker threads
jointly own the `Receiver` (line 93), so `Sender::send` succeeds exactly
while some worker has not exited. -/
def consumerAlive (ws : List WorkerState) : Bool :=
  ws.any (fun w => match w with | WorkerState.dead => false | _ => true)

/-- Shared state of a `ThreadPool` (lines 23-27) together with the loop state
of each worker.  `nextId` models the fresh-identifier supply behind
`Uuid::new_v4()`; `senderAlive` models `sender: Option<Sender<Job>>` being
`Some` (it becomes `None` when `Drop` takes it, line 163). -/
structure PoolState where
  nextId : Nat
  registry : Registry
  queue : List Job
  senderAlive : Bool
  workers : List WorkerState
deriving DecidableEq, Repr

/-- `PoolCreateError` (lines 30-32). -/
inductive PoolCreateError where
  | NonValueZeroAllowed
deriving DecidableEq, Repr

/-- `ThreadPool::build` (lines 87-111): reject size zero, otherwise start with
an empty registry, an empty queue, a live sender and `size` idle workers. -/
def ThreadPool.build (size : Nat) : Except PoolCreateError PoolState :=
  if size = 0 then Except.error PoolCreateError.NonValueZeroAllowed
  else Except.ok
    { nextId := 0
      registry := []
      queue := []
      senderAlive := true
      workers := List.replicate size WorkerState.idle }

/-- `ThreadPool::execute` (lines 126-153): build the job with a fresh id,
insert `{ state: Pending, result: None }` into the registry, then attempt to
send the job over the channel; a failed send (no live consumer) is only
logged, and the fresh id is returned to the caller either way. -/
def ThreadPool.execute (s : PoolState) (payload : Except String String) : Nat × PoolState :=
  let job : Job := ⟨s.nextId, payload⟩
  let registry := executeInsert s.registry job.id
  let queue := if s.senderAlive && consumerAlive s.workers then s.queue ++ [job] else s.queue
  (job.id, { s with nextId := s.nextId + 1, registry := registry, queue := queue })

/-- `ThreadPool::get_job_metadata` (lines 155-158): lock the registry, `get`,
`cloned` (cloning is the identity in this pure model). -/
def get_job_metadata (s : PoolState) (id : Nat) : Option JobMetadata :=
  regFind s.registry id

/-- Observable events of the system, labelling the transition relation. -/
inductive Event where
  | submit (id : Nat) (payload : Except String String) (delivered : Bool)
  | claim (w : Nat) (job : Job)
  | startJob (w : Nat) (id : Nat)
  | finishJob (w : Nat) (id : Nat)
  | query (id : Nat) (res : Option JobMetadata)
  | disconnect (w : Nat)
  | poison (w : Nat)
  | dropSender
deriving DecidableEq, Repr

/-- One interleaving step of the pool, its submitters and its workers.  Each
constructor is one mutex-guarded critical section (or channel operation) of
the source:
* `submit` is `ThreadPool::execute` (lines 126-153);
* `claim` is a worker receiving a job from the channel (lines 195-205);
* `startJob` is the pre-execution update followed by running the payload
  (lines 206-213);
* `finishJob` is the post-execution update (lines 215-237);
* `query` is `get_job_metadata` (lines 155-158), read-only;
* `disconnect` is `recv` returning `Err` after the sender was dropped and the
  queue drained (lines 239-242);
* `poison` is the worker's graceful exit when `receiver.lock()` fails
  (lines 195-201);
* `dropSender` is `Drop::drop` taking the sender (line 163). -/
inductive Step : PoolState → Event → PoolState → Prop where
  | submit (s : PoolState) (payload : Except String String) :
      Step s (Event.submit s.nextId payload (s.senderAlive && consumerAlive s.workers))
        (ThreadPool.execute s payload).2
  | claim (s : PoolState) (w : Nat) (job : Job) (rest : List Job)
      (hw : s.workers.get? w = some WorkerState.idle)
      (hq : s.queue = job :: rest) :
      Step s (Event.claim w job)
        { s with queue := rest, workers := s.workers.set w (WorkerState.claimed job) }
  | startJob (s : PoolState) (w : Nat) (job : Job)
      (hw : s.workers.get? w = some (WorkerState.claimed job)) :
      Step s (Event.startJob w job.id)
        { s with registry := preUpdate s.registry job.id
                 workers := s.workers.set w (WorkerState.ran job.id job.payload) }
  | finishJob (s : PoolState) (w : Nat) (id : Nat) (res : Except String String)
      (hw : s.workers.get? w = some (WorkerState.ran id res)) :
      Step s (Event.finishJob w id)
        { s with registry := postUpdate s.registry id res
                 workers := s.workers.set w WorkerState.idle }
  | query (s : PoolState) (id : Nat) :
      Step s (Event.query id (get_job_metadata s id)) s
  | disconnect (s : PoolState) (w : Nat)
      (hw : s.workers.get? w = some WorkerState.idle)
      (hs : s.senderAlive = false) (hq : s.queue = []) :
      Step s (Event.disconnect w) { s with workers := s.workers.set w WorkerState.dead }
  | poison (s : PoolState) (w : Nat)
      (hw : s.workers.get? w = some WorkerState.idle) :
      Step s (Event.poison w) { s with workers := s.workers.set w WorkerState.dead }
  | dropSender (s : PoolState) :
      Step s Event.dropSender { s with senderAlive := false }

/-- Execution traces: `Reach s evs t` means state `t` is reached from `s` by
the steps labelled `evs`, in order. -/
inductive Reach : PoolState → List Event → PoolState → Prop where
  | refl (s : PoolState) : Reach s [] s
  | step {s : PoolState} {evs : List Event} {t u : PoolState} {e : Event}
      (h1 : Reach s evs t) (h2 : Step t e u) : Reach s (evs ++ [e]) u

/-! Occurrence counters over the pool state, used to state that a job id is
active in at most one place (queue or one worker). -/

/-- Number of times `id` occurs in the queue. -/
def queueOcc (s : PoolState) (id : Nat) : Nat :=
  (s.queue.map Job.id).count id

/-- Contribution of one worker holding `id` as a claimed, not yet started job. -/
def WorkerState.claimedOcc1 : WorkerState → Nat → Nat
  | WorkerState.claimed j, id => if j.id = id then 1 else 0
  | _, _ => 0

/-- Contribution of one worker holding `id` with the payload already run. -/
def WorkerState.ranOcc1 : WorkerState → Nat → Nat
  | WorkerState.ran i _, id => if i = id then 1 else 0
  | _, _ => 0

/-- Number of workers currently holding `id` as a claimed job. -/
def claimedOcc (s : PoolState) (id : Nat) : Nat :=
  (s.workers.map (fun w => WorkerState.claimedOcc1 w id)).sum

/-- Number of workers currently holding `id` with the payload already run. -/
def ranOcc (s : PoolState) (id : Nat) : Nat :=
  (s.workers.map (fun w => WorkerState.ranOcc1 w id)).sum

/-- The state invariant of the pool, established by `ThreadPool.build` and
preserved by every step:
* every registry key was drawn from the fresh-id supply;
* every queued job and every claimed-but-not-started job still reads
  `Pending` in the registry, and every run-but-not-recorded job reads
  `Processing`;
* each id is active in at most one place. -/
structure Inv (s : PoolState) : Prop where
  regKeysLt : ∀ p ∈ s.registry, p.1 < s.nextId
  queuePending : ∀ j ∈ s.queue,
    regFind s.registry j.id = some ⟨JobStatus.Pending, none⟩
  claimedPending : ∀ w j, s.workers.get? w = some (WorkerState.claimed j) →
    regFind s.registry j.id = some ⟨JobStatus.Pending, none⟩
  ranProcessing : ∀ w id res, s.workers.get? w = some (WorkerState.ran id res) →
    regFind s.registry id = some ⟨JobStatus.Processing, none⟩
  activeOnce : ∀ id, queueOcc s id + claimedOcc s id + ranOcc s id ≤ 1

/-- Combined contribution of one worker holding `id` in either phase. -/
def WorkerState.heldOcc1 (x : WorkerState) (id : Nat) : Nat :=
  x.claimedOcc1 id + x.ranOcc1 id

/-! The forward lifecycle order on job statuses, and monotonicity of the
registry along every execution. -/

/-- Position of a status along the lifecycle
`Pending -> Processing -> (Completed | Failed)`. -/
def JobStatus.rank : JobStatus → Nat
  | JobStatus.Pending => 0
  | JobStatus.Processing => 1
  | JobStatus.Completed => 2
  | JobStatus.Failed _ => 2

/-- Forward order on statuses: unchanged, or strictly later in the lifecycle.
`Completed` and the `Failed` states are pairwise unrelated terminal states, so
`statusLE` rules out every backward move and every crossing between the two
terminal outcomes. -/
def statusLE (a b : JobStatus) : Prop := a = b ∨ a.rank < b.rank

/-! Event counters over traces: how many times an id was returned by `submit`,
delivered to the queue, claimed, had its payload run, and had its outcome
recorded. -/

def Event.submittedId : Event → Option Nat
  | Event.submit id _ _ => some id
  | _ => none

def Event.deliveredId : Event → Option Nat
  | Event.submit id _ true => some id
  | _ => none

def Event.claimedId : Event → Option Nat
  | Event.claim _ job => some job.id
  | _ => none

def Event.startedId : Event → Option Nat
  | Event.startJob _ id => some id
  | _ => none

def Event.finishedId : Event → Option Nat
  | Event.finishJob _ id => some id
  | _ => none

/-- Ids returned by the `submit` calls of a trace, in order. -/
def submittedIds (evs : List Event) : List Nat := evs.filterMap Event.submittedId

def submitCount (evs : List Event) (id : Nat) : Nat := (submittedIds evs).count id

def deliveredCount (evs : List Event) (id : Nat) : Nat :=
  (evs.filterMap Event.deliveredId).count id

def claimCount (evs : List Event) (id : Nat) : Nat :=
  (evs.filterMap Event.claimedId).count id

def startCount (evs : List Event) (id : Nat) : Nat :=
  (evs.filterMap Event.startedId).count id

def finishCount (evs : List Event) (id : Nat) : Nat :=
  (evs.filterMap Event.finishedId).count id

/-- Bookkeeping relation between a trace's event counters and the state it
reaches: each id is submitted at most once and only below the fresh-id
counter, and the delivered/claimed/started counters are conserved against the
jobs currently sitting in the queue or held by a worker. -/
structure TraceCounts (evs : List Event) (s : PoolState) : Prop where
  submitHigh : ∀ id, s.nextId ≤ id → submitCount evs id = 0
  submitOnce : ∀ id, submitCount evs id ≤ 1
  deliverEq : ∀ id, deliveredCount evs id = queueOcc s id + claimCount evs id
  claimEq : ∀ id, claimCount evs id = claimedOcc s id + startCount evs id
  startEq : ∀ id, startCount evs id = ranOcc s id + finishCount evs id

/-- A registry entry that reads `{ state: Pending, result: None }` while its id
is neither in the queue nor held by any worker can never change again: workers
only touch ids they claimed from the queue, and submissions only touch fresh
ids. -/
def Frozen (s : PoolState) (id : Nat) : Prop :=
  regFind s.registry id = some ⟨JobStatus.Pending, none⟩ ∧
  queueOcc s id = 0 ∧
  claimedOcc s id = 0 ∧
  ranOcc s id = 0 ∧
  id < s.nextId

/-- A state in which no work is pending or in flight: the queue is drained and
every worker is waiting or has exited. -/
def quiescent (s : PoolState) : Prop :=
  s.queue = [] ∧ ∀ x ∈ s.workers, x = WorkerState.idle ∨ x = WorkerState.dead

/-! Result of `std::sync::Mutex::lock` and the source's reactions to it, used
to settle the lock-failure claim. -/

/-- Outcome of `Mutex::lock`: a guard over the protected data, or a
`PoisonError` because a holder terminated while holding the lock. -/
inductive LockResult (α : Type) where
  | ok (guard : α)
  | poisoned
deriving DecidableEq, Repr

/-- What the surrounding code does with a lock acquisition result: proceed
with a value, log and leave the worker loop (`eprintln` then `return`), or
panic (the behaviour of `.unwrap()` on `Err`). -/
inductive LockedOutcome (α : Type) where
  | ok (a : α)
  | logAndExitLoop
  | panicked
deriving DecidableEq, Repr

/-- Lines 195-201: the worker matches on `receiver.lock()` (the Work Queue
consumer lock); on `Err` it prints "Avoid Mutex poisoning" and returns,
exiting its loop. -/
def workerRecvLock (lk : LockResult (List Job)) : LockedOutcome (List Job) :=
  match lk with
  | LockResult.ok q => LockedOutcome.ok q
  | LockResult.poisoned => LockedOutcome.logAndExitLoop

/-- Lines 206-211: the worker's pre-execution registry access is
`jobs.lock().unwrap()`; when the Job Registry lock is poisoned the `unwrap`
panics instead of logging and exiting the loop. -/
def workerPreUpdateLocked (lk : LockResult Registry) (id : Nat) : LockedOutcome Registry :=
  match lk with
  | LockResult.ok r => LockedOutcome.ok (preUpdate r id)
  | LockResult.poisoned => LockedOutcome.panicked

/-- Lines 215-237: the worker's post-execution registry access, the same
`jobs.lock().unwrap()`. -/
def workerPostUpdateLocked (lk : LockResult Registry) (id : Nat)
    (res : Except String String) : LockedOutcome Registry :=
  match lk with
  | LockResult.ok r => LockedOutcome.ok (postUpdate r id res)
  | LockResult.poisoned => LockedOutcome.panicked

/-- Lines 141-144: the submitter's registry insert in `ThreadPool::execute` is
`self.jobs.lock().unwrap()`, so a poisoned registry lock panics the submitter. -/
def executeInsertLocked (lk : LockResult Registry) (id : Nat) : LockedOutcome Registry :=
  match lk with
  | LockResult.ok r => LockedOutcome.ok (executeInsert r id)
  | LockResult.poisoned => LockedOutcome.panicked

/-- Lines 155-158: `get_job_metadata` also uses `self.jobs.lock().unwrap()`. -/
def getJobMetadataLocked (lk : LockResult Registry) (id : Nat) :
    LockedOutcome (Option JobMetadata) :=
  match lk with
  | LockResult.ok r => LockedOutcome.ok (regFind r id)
  | LockResult.poisoned => LockedOutcome.panicked

/-! Concrete states and steps used by the witnesses: a one-worker pool running
one successful job through its whole lifecycle, and degenerate states for the
edge-case claims. -/

def wInit : PoolState :=
  { nextId := 0, registry := [], queue := [], senderAlive := true
    workers := [WorkerState.idle] }

def wJob : Job := { id := 0, payload := Except.ok "x" }

def wS1 : PoolState := (ThreadPool.execute wInit (Except.ok "x")).2

def wS2 : PoolState :=
  { wS1 with queue := [], workers := wS1.workers.set 0 (WorkerState.claimed wJob) }

def wS3 : PoolState :=
  { wS2 with registry := preUpdate wS2.registry wJob.id
             workers := wS2.workers.set 0 (WorkerState.ran wJob.id wJob.payload) }

def wS4 : PoolState :=
  { wS3 with registry := postUpdate wS3.registry 0 (Except.ok "x")
             workers := wS3.workers.set 0 WorkerState.idle }

def wDead : PoolState := { wInit with workers := wInit.workers.set 0 WorkerState.dead }

def wAbsState : PoolState :=
  { nextId := 5, registry := [], queue := [], senderAlive := true
    workers := [WorkerState.claimed ⟨3, Except.ok "r"⟩] }

/-! Lemmas about the association-list registry operations. -/

theorem regFind_insert_self (r : Registry) (id : Nat) (m : JobMetadata) :
    regFind (regInsert r id m) id = some m := by
  simp [regInsert, regFind]

theorem regFind_filter_ne (r : Registry) (id id' : Nat) (h : id' ≠ id) :
    regFind (r.filter (fun p => p.1 != id)) id' = regFind r id' := by
  induction r with
  | nil => rfl
  | cons p rest ih =>
    obtain ⟨k, m⟩ := p
    by_cases hk : k = id
    · have hne : ¬ k = id' := fun hc => h (by rw [← hc]; exact hk)
      have hf : ((k, m) :: rest).filter (fun p => p.1 != id)
          = rest.filter (fun p => p.1 != id) := by
        simp [List.filter_cons, hk]
      rw [hf, ih]
      simp [regFind, hne]
    · have hf : ((k, m) :: rest).filter (fun p => p.1 != id)
          = (k, m) :: rest.filter (fun p => p.1 != id) := by
        simp [List.filter_cons, hk]
      rw [hf]
      by_cases hk' : k = id'
      · simp [regFind, hk']
      · simp [regFind, hk', ih]

theorem regFind_insert_ne (r : Registry) (id id' : Nat) (m : JobMetadata)
    (h : id' ≠ id) : regFind (regInsert r id m) id' = regFind r id' := by
  have hid : ¬ id = id' := fun hc => h hc.symm
  show (if id = id' then some m else regFind (r.filter (fun p => p.1 != id)) id')
      = regFind r id'
  rw [if_neg hid, regFind_filter_ne r id id' h]

theorem regUpdate_cons (k : Nat) (m : JobMetadata) (rest : Registry) (id : Nat)
    (f : JobMetadata → JobMetadata) :
    regUpdate ((k, m) :: rest) id f
      = (if k = id then (k, f m) else (k, m)) :: regUpdate rest id f := rfl

theorem regFind_cons (k : Nat) (m : JobMetadata) (rest : Registry) (id : Nat) :
    regFind ((k, m) :: rest) id = if k = id then some m else regFind rest id := rfl

theorem regFind_update_self (r : Registry) (id : Nat) (f : JobMetadata → JobMetadata) :
    regFind (regUpdate r id f) id = (regFind r id).map f := by
  induction r with
  | nil => rfl
  | cons p rest ih =>
    obtain ⟨k, m⟩ := p
    rw [regUpdate_cons]
    by_cases hk : k = id
    · rw [if_pos hk, regFind_cons, if_pos hk, regFind_cons, if_pos hk]
      rfl
    · rw [if_neg hk, regFind_cons, if_neg hk, regFind_cons, if_neg hk]
      exact ih

theorem regFind_update_ne (r : Registry) (id id' : Nat) (f : JobMetadata → JobMetadata)
    (h : id' ≠ id) : regFind (regUpdate r id f) id' = regFind r id' := by
  induction r with
  | nil => rfl
  | cons p rest ih =>
    obtain ⟨k, m⟩ := p
    rw [regUpdate_cons]
    by_cases hk : k = id
    · have hne : ¬ k = id' := fun hc => h (by rw [← hc]; exact hk)
      rw [if_pos hk, regFind_cons, if_neg hne, regFind_cons, if_neg hne]
      exact ih
    · rw [if_neg hk]
      by_cases hk' : k = id'
      · rw [regFind_cons, if_pos hk', regFind_cons, if_pos hk']
      · rw [regFind_cons, if_neg hk', regFind_cons, if_neg hk']
        exact ih

theorem regUpdate_absent (r : Registry) (id : Nat) (f : JobMetadata → JobMetadata)
    (h : regFind r id = none) : regUpdate r id f = r := by
  induction r with
  | nil => rfl
  | cons p rest ih =>
    obtain ⟨k, m⟩ := p
    by_cases hk : k = id
    · simp [regFind, hk] at h
    · simp only [regFind, if_neg hk] at h
      show (if k = id then (k, f m) else (k, m)) :: regUpdate rest id f = (k, m) :: rest
      rw [if_neg hk, ih h]

theorem mem_of_regFind (r : Registry) (id : Nat) (m : JobMetadata)
    (h : regFind r id = some m) : (id, m) ∈ r := by
  induction r with
  | nil => simp [regFind] at h
  | cons p rest ih =>
    obtain ⟨k, m'⟩ := p
    by_cases hk : k = id
    · simp only [regFind, if_pos hk] at h
      have hm : m' = m := by injection h
      subst hk; subst hm
      exact List.mem_cons_self _ _
    · simp only [regFind, if_neg hk] at h
      exact List.mem_cons_of_mem _ (ih h)

theorem mem_regInsert (r : Registry) (id : Nat) (m : JobMetadata) (p : Nat × JobMetadata)
    (h : p ∈ regInsert r id m) : p = (id, m) ∨ p ∈ r := by
  simp only [regInsert] at h
  rcases List.mem_cons.mp h with h | h
  · exact Or.inl h
  · exact Or.inr (List.mem_of_mem_filter h)

theorem mem_regUpdate (r : Registry) (id : Nat) (f : JobMetadata → JobMetadata)
    (p : Nat × JobMetadata) (h : p ∈ regUpdate r id f) : ∃ q ∈ r, p.1 = q.1 := by
  simp only [regUpdate, List.mem_map] at h
  obtain ⟨q, hq, hpq⟩ := h
  subst hpq
  refine ⟨q, hq, ?_⟩
  by_cases hk : q.1 = id <;> simp [hk]

/-! Lemmas about `List.get?`, `List.set` and sums of pointwise counts. -/

theorem get?_set_self {α : Type} (l : List α) (w : Nat) (v old : α)
    (h : l.get? w = some old) : (l.set w v).get? w = some v := by
  induction l generalizing w with
  | nil => simp at h
  | cons x xs ih =>
    cases w with
    | zero => rfl
    | succ n => exact ih n h

theorem get?_set_ne {α : Type} (l : List α) (w w' : Nat) (v : α) (h : w' ≠ w) :
    (l.set w v).get? w' = l.get? w' := by
  induction l generalizing w w' with
  | nil => rfl
  | cons x xs ih =>
    cases w with
    | zero =>
      cases w' with
      | zero => exact absurd rfl h
      | succ n' => rfl
    | succ n =>
      cases w' with
      | zero => rfl
      | succ n' => exact ih n n' (fun hc => h (by rw [hc]))

theorem sum_map_set {α : Type} (f : α → Nat) (l : List α) (w : Nat) (v old : α)
    (h : l.get? w = some old) :
    ((l.set w v).map f).sum + f old = (l.map f).sum + f v := by
  induction l generalizing w with
  | nil => simp at h
  | cons x xs ih =>
    cases w with
    | zero =>
      have hx : x = old := by simpa using h
      subst hx
      show ((v :: xs).map f).sum + f x = ((x :: xs).map f).sum + f v
      simp only [List.map_cons, List.sum_cons]
      omega
    | succ n =>
      have hih := ih n h
      show ((x :: xs.set n v).map f).sum + f old = ((x :: xs).map f).sum + f v
      simp only [List.map_cons, List.sum_cons]
      omega

theorem le_sum_map_of_get? {α : Type} (f : α → Nat) (l : List α) (w : Nat) (x : α)
    (h : l.get? w = some x) : f x ≤ (l.map f).sum := by
  induction l generalizing w with
  | nil => simp at h
  | cons y ys ih =>
    cases w with
    | zero =>
      have hx : y = x := by simpa using h
      subst hx
      simp only [List.map_cons, List.sum_cons]
      omega
    | succ n =>
      have hih := ih n h
      simp only [List.map_cons, List.sum_cons]
      omega

theorem two_get?_le_sum {α : Type} (f : α → Nat) (l : List α) (w w' : Nat) (x y : α)
    (hww' : w ≠ w') (hx : l.get? w = some x) (hy : l.get? w' = some y) :
    f x + f y ≤ (l.map f).sum := by
  induction l generalizing w w' with
  | nil => simp at hx
  | cons z zs ih =>
    cases w with
    | zero =>
      cases w' with
      | zero => exact absurd rfl hww'
      | succ n' =>
        have hz : z = x := by simpa using hx
        subst hz
        have hle := le_sum_map_of_get? f zs n' y hy
        simp only [List.map_cons, List.sum_cons]
        omega
    | succ n =>
      cases w' with
      | zero =>
        have hz : z = y := by simpa using hy
        subst hz
        have hle := le_sum_map_of_get? f zs n x hx
        simp only [List.map_cons, List.sum_cons]
        omega
      | succ n' =>
        have hle := ih n n' (fun hc => hww' (by rw [hc])) hx hy
        simp only [List.map_cons, List.sum_cons]
        omega

theorem get?_of_mem {α : Type} {l : List α} {x : α} (h : x ∈ l) :
    ∃ n, l.get? n = some x := by
  induction l with
  | nil => simp at h
  | cons y ys ih =>
    rcases List.mem_cons.mp h with h | h
    · exact ⟨0, by simp [h]⟩
    · obtain ⟨n, hn⟩ := ih h
      exact ⟨n + 1, hn⟩

theorem sum_map_eq_zero {α : Type} (f : α → Nat) (l : List α)
    (h : ∀ x ∈ l, f x = 0) : (l.map f).sum = 0 := by
  induction l with
  | nil => rfl
  | cons x xs ih =>
    simp [h x (List.mem_cons_self x xs), ih (fun y hy => h y (List.mem_cons_of_mem _ hy))]

theorem sum_map_add {α : Type} (f g : α → Nat) (l : List α) :
    (l.map (fun x => f x + g x)).sum = (l.map f).sum + (l.map g).sum := by
  induction l with
  | nil => rfl
  | cons x xs ih =>
    simp only [List.map_cons, List.sum_cons]
    omega

/-! Facts derived from the invariant. -/

/-- Ids at or above the fresh-id counter are absent from the registry. -/
theorem regFind_fresh (s : PoolState) (hq : Inv s) (id : Nat) (hid : s.nextId ≤ id) :
    regFind s.registry id = none := by
  cases hfind : regFind s.registry id with
  | none => rfl
  | some m =>
    have hlt : id < s.nextId := hq.regKeysLt _ (mem_of_regFind _ _ _ hfind)
    omega

theorem queueOcc_eq_zero (s : PoolState) (hq : Inv s) (id : Nat) (hid : s.nextId ≤ id) :
    queueOcc s id = 0 := by
  refine List.count_eq_zero.mpr ?_
  intro hmem
  obtain ⟨j, hj, hjid⟩ := List.mem_map.mp hmem
  have hfind := hq.queuePending j hj
  have hlt : j.id < s.nextId := hq.regKeysLt _ (mem_of_regFind _ _ _ hfind)
  omega

theorem claimedOcc_eq_zero (s : PoolState) (hq : Inv s) (id : Nat) (hid : s.nextId ≤ id) :
    claimedOcc s id = 0 := by
  refine sum_map_eq_zero _ _ ?_
  intro x hx
  cases x with
  | claimed j =>
    obtain ⟨n, hn⟩ := get?_of_mem hx
    have hfind := hq.claimedPending n j hn
    have hlt : j.id < s.nextId := hq.regKeysLt _ (mem_of_regFind _ _ _ hfind)
    show (if j.id = id then 1 else 0) = 0
    rw [if_neg (by omega)]
  | idle => rfl
  | ran i res => rfl
  | dead => rfl

theorem ranOcc_eq_zero (s : PoolState) (hq : Inv s) (id : Nat) (hid : s.nextId ≤ id) :
    ranOcc s id = 0 := by
  refine sum_map_eq_zero _ _ ?_
  intro x hx
  cases x with
  | ran i res =>
    obtain ⟨n, hn⟩ := get?_of_mem hx
    have hfind := hq.ranProcessing n i res hn
    have hlt : i < s.nextId := hq.regKeysLt _ (mem_of_regFind _ _ _ hfind)
    show (if i = id then 1 else 0) = 0
    rw [if_neg (by omega)]
  | idle => rfl
  | claimed j => rfl
  | dead => rfl

theorem queueOcc_pos_of_mem (s : PoolState) (j : Job) (hj : j ∈ s.queue) :
    1 ≤ queueOcc s j.id := by
  have hmem : j.id ∈ s.queue.map Job.id := List.mem_map_of_mem Job.id hj
  have hpos := List.count_pos_iff.mpr hmem
  show 1 ≤ (s.queue.map Job.id).count j.id
  omega

theorem heldSum_eq (s : PoolState) (id : Nat) :
    (s.workers.map (fun w => WorkerState.heldOcc1 w id)).sum
      = claimedOcc s id + ranOcc s id := by
  show (s.workers.map (fun w => w.claimedOcc1 id + w.ranOcc1 id)).sum = _
  exact sum_map_add _ _ _

/-- Under the invariant, a job sitting in the queue is held by no worker. -/
theorem holder_zero_of_queue (s : PoolState) (hq : Inv s) (j : Job) (hj : j ∈ s.queue)
    (w : Nat) (x : WorkerState) (hx : s.workers.get? w = some x) :
    x.heldOcc1 j.id = 0 := by
  have hqpos := queueOcc_pos_of_mem s j hj
  have hle : x.heldOcc1 j.id ≤ claimedOcc s j.id + ranOcc s j.id := by
    have hle0 := le_sum_map_of_get? (fun z => WorkerState.heldOcc1 z j.id) s.workers w x hx
    rw [heldSum_eq] at hle0
    exact hle0
  have ha := hq.activeOnce j.id
  omega

/-- Under the invariant, two distinct workers never hold the same id. -/
theorem other_holder_zero (s : PoolState) (hq : Inv s) (w w' : Nat) (x y : WorkerState)
    (hne : w' ≠ w) (hx : s.workers.get? w = some x) (hy : s.workers.get? w' = some y)
    (id : Nat) (hxp : 1 ≤ x.heldOcc1 id) : y.heldOcc1 id = 0 := by
  have hle : x.heldOcc1 id + y.heldOcc1 id ≤ claimedOcc s id + ranOcc s id := by
    have hle0 := two_get?_le_sum (fun z => WorkerState.heldOcc1 z id) s.workers w w' x y
      (fun hc => hne hc.symm) hx hy
    rw [heldSum_eq] at hle0
    exact hle0
  have ha := hq.activeOnce id
  omega

theorem heldOcc1_claimed (j : Job) (id : Nat) :
    (WorkerState.claimed j).heldOcc1 id = if j.id = id then 1 else 0 := by
  simp [WorkerState.heldOcc1, WorkerState.claimedOcc1, WorkerState.ranOcc1]

theorem heldOcc1_ran (i : Nat) (res : Except String String) (id : Nat) :
    (WorkerState.ran i res).heldOcc1 id = if i = id then 1 else 0 := by
  simp [WorkerState.heldOcc1, WorkerState.claimedOcc1, WorkerState.ranOcc1]

/-! Projection lemmas for `ThreadPool.execute`. -/

theorem execute_fst (s : PoolState) (payload : Except String String) :
    (ThreadPool.execute s payload).1 = s.nextId := rfl

theorem execute_nextId (s : PoolState) (payload : Except String String) :
    (ThreadPool.execute s payload).2.nextId = s.nextId + 1 := rfl

theorem execute_registry (s : PoolState) (payload : Except String String) :
    (ThreadPool.execute s payload).2.registry = executeInsert s.registry s.nextId := rfl

theorem execute_workers (s : PoolState) (payload : Except String String) :
    (ThreadPool.execute s payload).2.workers = s.workers := rfl

theorem execute_sender (s : PoolState) (payload : Except String String) :
    (ThreadPool.execute s payload).2.senderAlive = s.senderAlive := rfl

theorem execute_queue (s : PoolState) (payload : Except String String) :
    (ThreadPool.execute s payload).2.queue
      = if s.senderAlive && consumerAlive s.workers
        then s.queue ++ [⟨s.nextId, payload⟩] else s.queue := rfl

theorem preUpdate_eq (r : Registry) (id : Nat) :
    preUpdate r id = regUpdate r id (fun m => { m with state := JobStatus.Processing }) := rfl

theorem postUpdate_eq (r : Registry) (id : Nat) (res : Except String String) :
    postUpdate r id res = regUpdate r id (fun _ =>
      match res with
      | Except.ok s => ⟨JobStatus.Completed, some s⟩
      | Except.error e => ⟨JobStatus.Failed e, some e⟩) := rfl

/-! Preservation of the invariant by each step. -/

theorem inv_submit (s : PoolState) (payload : Except String String) (hq : Inv s) :
    Inv (ThreadPool.execute s payload).2 := by
  refine ⟨?_, ?_, ?_, ?_, ?_⟩
  · intro p hp
    rw [execute_registry] at hp
    rw [execute_nextId]
    rcases mem_regInsert _ _ _ _ hp with hp1 | hp2
    · subst hp1
      exact Nat.lt_succ_self _
    · have := hq.regKeysLt p hp2
      omega
  · intro j hj
    rw [execute_queue] at hj
    rw [execute_registry]
    by_cases hc : (s.senderAlive && consumerAlive s.workers) = true
    · rw [if_pos hc] at hj
      rcases List.mem_append.mp hj with hj1 | hj2
      · have hfind := hq.queuePending j hj1
        have hlt : j.id < s.nextId := hq.regKeysLt _ (mem_of_regFind _ _ _ hfind)
        show regFind (regInsert s.registry s.nextId ⟨JobStatus.Pending, none⟩) j.id = _
        rw [regFind_insert_ne _ _ _ _ (by omega)]
        exact hfind
      · have hj2' : j = ⟨s.nextId, payload⟩ := by simpa using hj2
        subst hj2'
        exact regFind_insert_self _ _ _
    · rw [if_neg hc] at hj
      have hfind := hq.queuePending j hj
      have hlt : j.id < s.nextId := hq.regKeysLt _ (mem_of_regFind _ _ _ hfind)
      show regFind (regInsert s.registry s.nextId ⟨JobStatus.Pending, none⟩) j.id = _
      rw [regFind_insert_ne _ _ _ _ (by omega)]
      exact hfind
  · intro w j hw
    rw [execute_workers] at hw
    rw [execute_registry]
    have hfind := hq.claimedPending w j hw
    have hlt : j.id < s.nextId := hq.regKeysLt _ (mem_of_regFind _ _ _ hfind)
    show regFind (regInsert s.registry s.nextId ⟨JobStatus.Pending, none⟩) j.id = _
    rw [regFind_insert_ne _ _ _ _ (by omega)]
    exact hfind
  · intro w id res hw
    rw [execute_workers] at hw
    rw [execute_registry]
    have hfind := hq.ranProcessing w id res hw
    have hlt : id < s.nextId := hq.regKeysLt _ (mem_of_regFind _ _ _ hfind)
    show regFind (regInsert s.registry s.nextId ⟨JobStatus.Pending, none⟩) id = _
    rw [regFind_insert_ne _ _ _ _ (by omega)]
    exact hfind
  · intro id
    have ha := hq.activeOnce id
    have hco : claimedOcc (ThreadPool.execute s payload).2 id = claimedOcc s id := rfl
    have hro : ranOcc (ThreadPool.execute s payload).2 id = ranOcc s id := rfl
    rw [hco, hro]
    by_cases hc : (s.senderAlive && consumerAlive s.workers) = true
    · have hqc : queueOcc (ThreadPool.execute s payload).2 id
          = queueOcc s id + (if id = s.nextId then 1 else 0) := by
        show ((ThreadPool.execute s payload).2.queue.map Job.id).count id
            = (s.queue.map Job.id).count id + (if id = s.nextId then 1 else 0)
        rw [execute_queue, if_pos hc, List.map_append, List.count_append]
        rcases eq_or_ne id s.nextId with hid | hid
        · simp [hid]
        · simp [hid, Ne.symm hid]
      rw [hqc]
      rcases eq_or_ne id s.nextId with hid | hid
      · subst hid
        have z1 := queueOcc_eq_zero s hq s.nextId (Nat.le_refl _)
        have z2 := claimedOcc_eq_zero s hq s.nextId (Nat.le_refl _)
        have z3 := ranOcc_eq_zero s hq s.nextId (Nat.le_refl _)
        rw [if_pos rfl]
        omega
      · rw [if_neg hid]
        omega
    · have hqc : queueOcc (ThreadPool.execute s payload).2 id = queueOcc s id := by
        show ((ThreadPool.execute s payload).2.queue.map Job.id).count id
            = (s.queue.map Job.id).count id
        rw [execute_queue, if_neg hc]
      rw [hqc]
      omega

theorem inv_claim (s : PoolState) (w : Nat) (job : Job) (rest : List Job)
    (hq : Inv s) (hw : s.workers.get? w = some WorkerState.idle) (hqe : s.queue = job :: rest) :
    Inv { s with queue := rest, workers := s.workers.set w (WorkerState.claimed job) } := by
  have hjobmem : job ∈ s.queue := by rw [hqe]; exact List.mem_cons_self _ _
  refine ⟨?_, ?_, ?_, ?_, ?_⟩
  · intro p hp
    exact hq.regKeysLt p hp
  · intro j hj
    exact hq.queuePending j (by rw [hqe]; exact List.mem_cons_of_mem _ hj)
  · intro w' j' hw'
    by_cases hww : w' = w
    · subst hww
      rw [get?_set_self _ _ _ _ hw] at hw'
      have hj' : job = j' := by
        have h1 := Option.some.inj hw'
        injection h1
      subst hj'
      exact hq.queuePending job hjobmem
    · rw [get?_set_ne _ _ _ _ hww] at hw'
      exact hq.claimedPending w' j' hw'
  · intro w' id res hw'
    by_cases hww : w' = w
    · subst hww
      rw [get?_set_self _ _ _ _ hw] at hw'
      simp at hw'
    · rw [get?_set_ne _ _ _ _ hww] at hw'
      exact hq.ranProcessing w' id res hw'
  · intro id
    have ha : (s.queue.map Job.id).count id
        + (s.workers.map (fun x => WorkerState.claimedOcc1 x id)).sum
        + (s.workers.map (fun x => WorkerState.ranOcc1 x id)).sum ≤ 1 := hq.activeOnce id
    have hqold : (s.queue.map Job.id).count id
        = (if id = job.id then 1 else 0) + (rest.map Job.id).count id := by
      rw [hqe, List.map_cons, List.count_cons]
      rcases eq_or_ne id job.id with hid | hid
      · simp [hid, Nat.add_comm]
      · simp [hid, Ne.symm hid]
    have hcs : ((s.workers.set w (WorkerState.claimed job)).map
          (fun x => WorkerState.claimedOcc1 x id)).sum
          + WorkerState.claimedOcc1 WorkerState.idle id
        = (s.workers.map (fun x => WorkerState.claimedOcc1 x id)).sum
          + WorkerState.claimedOcc1 (WorkerState.claimed job) id :=
      sum_map_set _ _ _ _ _ hw
    have hrs : ((s.workers.set w (WorkerState.claimed job)).map
          (fun x => WorkerState.ranOcc1 x id)).sum
          + WorkerState.ranOcc1 WorkerState.idle id
        = (s.workers.map (fun x => WorkerState.ranOcc1 x id)).sum
          + WorkerState.ranOcc1 (WorkerState.claimed job) id :=
      sum_map_set _ _ _ _ _ hw
    have e1 : WorkerState.claimedOcc1 WorkerState.idle id = 0 := rfl
    have e2 : WorkerState.ranOcc1 WorkerState.idle id = 0 := rfl
    have e3 : WorkerState.ranOcc1 (WorkerState.claimed job) id = 0 := rfl
    show (rest.map Job.id).count id
        + ((s.workers.set w (WorkerState.claimed job)).map
            (fun x => WorkerState.claimedOcc1 x id)).sum
        + ((s.workers.set w (WorkerState.claimed job)).map
            (fun x => WorkerState.ranOcc1 x id)).sum ≤ 1
    rcases eq_or_ne id job.id with hid | hid
    · have e4 : WorkerState.claimedOcc1 (WorkerState.claimed job) id = 1 := by
        show (if job.id = id then 1 else 0) = 1
        rw [if_pos hid.symm]
      rw [if_pos hid] at hqold
      omega
    · have e4 : WorkerState.claimedOcc1 (WorkerState.claimed job) id = 0 := by
        show (if job.id = id then 1 else 0) = 0
        rw [if_neg (fun hc => hid hc.symm)]
      rw [if_neg hid] at hqold
      omega

theorem inv_startJob (s : PoolState) (w : Nat) (job : Job)
    (hq : Inv s) (hw : s.workers.get? w = some (WorkerState.claimed job)) :
    Inv { s with registry := preUpdate s.registry job.id
                 workers := s.workers.set w (WorkerState.ran job.id job.payload) } := by
  have hfind : regFind s.registry job.id = some ⟨JobStatus.Pending, none⟩ :=
    hq.claimedPending w job hw
  have hheld : 1 ≤ (WorkerState.claimed job).heldOcc1 job.id := by
    rw [heldOcc1_claimed, if_pos rfl]
  refine ⟨?_, ?_, ?_, ?_, ?_⟩
  · intro p hp
    have hp' : p ∈ regUpdate s.registry job.id
        (fun m => { m with state := JobStatus.Processing }) := hp
    obtain ⟨q, hqmem, hpq⟩ := mem_regUpdate _ _ _ p hp'
    rw [hpq]
    exact hq.regKeysLt q hqmem
  · intro j hj
    have hne : j.id ≠ job.id := by
      intro hc
      have h0 := holder_zero_of_queue s hq j hj w _ hw
      rw [heldOcc1_claimed, if_pos hc.symm] at h0
      exact one_ne_zero h0
    show regFind (preUpdate s.registry job.id) j.id = _
    rw [preUpdate_eq, regFind_update_ne _ _ _ _ hne]
    exact hq.queuePending j hj
  · intro w' j' hw'
    by_cases hww : w' = w
    · subst hww
      rw [get?_set_self _ _ _ _ hw] at hw'
      simp at hw'
    · rw [get?_set_ne _ _ _ _ hww] at hw'
      have h0 := other_holder_zero s hq w w' _ _ hww hw hw' job.id hheld
      have hne : j'.id ≠ job.id := by
        intro hc
        rw [heldOcc1_claimed, if_pos hc] at h0
        exact one_ne_zero h0
      show regFind (preUpdate s.registry job.id) j'.id = _
      rw [preUpdate_eq, regFind_update_ne _ _ _ _ hne]
      exact hq.claimedPending w' j' hw'
  · intro w' id' res' hw'
    by_cases hww : w' = w
    · subst hww
      rw [get?_set_self _ _ _ _ hw] at hw'
      have h1 := Option.some.inj hw'
      injection h1 with hid hres
      subst hid
      show regFind (preUpdate s.registry job.id) job.id = some ⟨JobStatus.Processing, none⟩
      rw [preUpdate_eq, regFind_update_self, hfind]
      rfl
    · rw [get?_set_ne _ _ _ _ hww] at hw'
      have h0 := other_holder_zero s hq w w' _ _ hww hw hw' job.id hheld
      have hne : id' ≠ job.id := by
        intro hc
        rw [heldOcc1_ran, if_pos hc] at h0
        exact one_ne_zero h0
      show regFind (preUpdate s.registry job.id) id' = _
      rw [preUpdate_eq, regFind_update_ne _ _ _ _ hne]
      exact hq.ranProcessing w' id' res' hw'
  · intro id
    have ha : (s.queue.map Job.id).count id
        + (s.workers.map (fun x => WorkerState.claimedOcc1 x id)).sum
        + (s.workers.map (fun x => WorkerState.ranOcc1 x id)).sum ≤ 1 := hq.activeOnce id
    have hcs : ((s.workers.set w (WorkerState.ran job.id job.payload)).map
          (fun x => WorkerState.claimedOcc1 x id)).sum
          + WorkerState.claimedOcc1 (WorkerState.claimed job) id
        = (s.workers.map (fun x => WorkerState.claimedOcc1 x id)).sum
          + WorkerState.claimedOcc1 (WorkerState.ran job.id job.payload) id :=
      sum_map_set _ _ _ _ _ hw
    have hrs : ((s.workers.set w (WorkerState.ran job.id job.payload)).map
          (fun x => WorkerState.ranOcc1 x id)).sum
          + WorkerState.ranOcc1 (WorkerState.claimed job) id
        = (s.workers.map (fun x => WorkerState.ranOcc1 x id)).sum
          + WorkerState.ranOcc1 (WorkerState.ran job.id job.payload) id :=
      sum_map_set _ _ _ _ _ hw
    have e1 : WorkerState.claimedOcc1 (WorkerState.ran job.id job.payload) id = 0 := rfl
    have e2 : WorkerState.ranOcc1 (WorkerState.claimed job) id = 0 := rfl
    show (s.queue.map Job.id).count id
        + ((s.workers.set w (WorkerState.ran job.id job.payload)).map
            (fun x => WorkerState.claimedOcc1 x id)).sum
        + ((s.workers.set w (WorkerState.ran job.id job.payload)).map
            (fun x => WorkerState.ranOcc1 x id)).sum ≤ 1
    rcases eq_or_ne job.id id with hid | hid
    · have e3 : WorkerState.claimedOcc1 (WorkerState.claimed job) id = 1 := by
        show (if job.id = id then 1 else 0) = 1
        rw [if_pos hid]
      have e4 : WorkerState.ranOcc1 (WorkerState.ran job.id job.payload) id = 1 := by
        show (if job.id = id then 1 else 0) = 1
        rw [if_pos hid]
      omega
    · have e3 : WorkerState.claimedOcc1 (WorkerState.claimed job) id = 0 := by
        show (if job.id = id then 1 else 0) = 0
        rw [if_neg hid]
      have e4 : WorkerState.ranOcc1 (WorkerState.ran job.id job.payload) id = 0 := by
        show (if job.id = id then 1 else 0) = 0
        rw [if_neg hid]
      omega

theorem inv_finishJob (s : PoolState) (w : Nat) (id : Nat) (res : Except String String)
    (hq : Inv s) (hw : s.workers.get? w = some (WorkerState.ran id res)) :
    Inv { s with registry := postUpdate s.registry id res
                 workers := s.workers.set w WorkerState.idle } := by
  have hheld : 1 ≤ (WorkerState.ran id res).heldOcc1 id := by
    rw [heldOcc1_ran, if_pos rfl]
  refine ⟨?_, ?_, ?_, ?_, ?_⟩
  · intro p hp
    have hp' : p ∈ postUpdate s.registry id res := hp
    rw [postUpdate_eq] at hp'
    obtain ⟨q, hqmem, hpq⟩ := mem_regUpdate _ _ _ p hp'
    rw [hpq]
    exact hq.regKeysLt q hqmem
  · intro j hj
    have hne : j.id ≠ id := by
      intro hc
      have h0 := holder_zero_of_queue s hq j hj w _ hw
      rw [heldOcc1_ran, if_pos hc.symm] at h0
      exact one_ne_zero h0
    show regFind (postUpdate s.registry id res) j.id = _
    rw [postUpdate_eq, regFind_update_ne _ _ _ _ hne]
    exact hq.queuePending j hj
  · intro w' j' hw'
    by_cases hww : w' = w
    · subst hww
      rw [get?_set_self _ _ _ _ hw] at hw'
      simp at hw'
    · rw [get?_set_ne _ _ _ _ hww] at hw'
      have h0 := other_holder_zero s hq w w' _ _ hww hw hw' id hheld
      have hne : j'.id ≠ id := by
        intro hc
        rw [heldOcc1_claimed, if_pos hc] at h0
        exact one_ne_zero h0
      show regFind (postUpdate s.registry id res) j'.id = _
      rw [postUpdate_eq, regFind_update_ne _ _ _ _ hne]
      exact hq.claimedPending w' j' hw'
  · intro w' id' res' hw'
    by_cases hww : w' = w
    · subst hww
      rw [get?_set_self _ _ _ _ hw] at hw'
      simp at hw'
    · rw [get?_set_ne _ _ _ _ hww] at hw'
      have h0 := other_holder_zero s hq w w' _ _ hww hw hw' id hheld
      have hne : id' ≠ id := by
        intro hc
        rw [heldOcc1_ran, if_pos hc] at h0
        exact one_ne_zero h0
      show regFind (postUpdate s.registry id res) id' = _
      rw [postUpdate_eq, regFind_update_ne _ _ _ _ hne]
      exact hq.ranProcessing w' id' res' hw'
  · intro id'
    have ha : (s.queue.map Job.id).count id'
        + (s.workers.map (fun x => WorkerState.claimedOcc1 x id')).sum
        + (s.workers.map (fun x => WorkerState.ranOcc1 x id')).sum ≤ 1 := hq.activeOnce id'
    have hcs : ((s.workers.set w WorkerState.idle).map
          (fun x => WorkerState.claimedOcc1 x id')).sum
          + WorkerState.claimedOcc1 (WorkerState.ran id res) id'
        = (s.workers.map (fun x => WorkerState.claimedOcc1 x id')).sum
          + WorkerState.claimedOcc1 WorkerState.idle id' :=
      sum_map_set _ _ _ _ _ hw
    have hrs : ((s.workers.set w WorkerState.idle).map
          (fun x => WorkerState.ranOcc1 x id')).sum
          + WorkerState.ranOcc1 (WorkerState.ran id res) id'
        = (s.workers.map (fun x => WorkerState.ranOcc1 x id')).sum
          + WorkerState.ranOcc1 WorkerState.idle id' :=
      sum_map_set _ _ _ _ _ hw
    have e1 : WorkerState.claimedOcc1 (WorkerState.ran id res) id' = 0 := rfl
    have e2 : WorkerState.claimedOcc1 WorkerState.idle id' = 0 := rfl
    have e3 : WorkerState.ranOcc1 WorkerState.idle id' = 0 := rfl
    show (s.queue.map Job.id).count id'
        + ((s.workers.set w WorkerState.idle).map
            (fun x => WorkerState.claimedOcc1 x id')).sum
        + ((s.workers.set w WorkerState.idle).map
            (fun x => WorkerState.ranOcc1 x id')).sum ≤ 1
    omega

theorem inv_dead (s : PoolState) (w : Nat) (hq : Inv s)
    (hw : s.workers.get? w = some WorkerState.idle) :
    Inv { s with workers := s.workers.set w WorkerState.dead } := by
  refine ⟨hq.regKeysLt, hq.queuePending, ?_, ?_, ?_⟩
  · intro w' j' hw'
    by_cases hww : w' = w
    · subst hww
      rw [get?_set_self _ _ _ _ hw] at hw'
      simp at hw'
    · rw [get?_set_ne _ _ _ _ hww] at hw'
      exact hq.claimedPending w' j' hw'
  · intro w' id' res' hw'
    by_cases hww : w' = w
    · subst hww
      rw [get?_set_self _ _ _ _ hw] at hw'
      simp at hw'
    · rw [get?_set_ne _ _ _ _ hww] at hw'
      exact hq.ranProcessing w' id' res' hw'
  · intro id
    have ha : (s.queue.map Job.id).count id
        + (s.workers.map (fun x => WorkerState.claimedOcc1 x id)).sum
        + (s.workers.map (fun x => WorkerState.ranOcc1 x id)).sum ≤ 1 := hq.activeOnce id
    have hcs : ((s.workers.set w WorkerState.dead).map
          (fun x => WorkerState.claimedOcc1 x id)).sum
          + WorkerState.claimedOcc1 WorkerState.idle id
        = (s.workers.map (fun x => WorkerState.claimedOcc1 x id)).sum
          + WorkerState.claimedOcc1 WorkerState.dead id :=
      sum_map_set _ _ _ _ _ hw
    have hrs : ((s.workers.set w WorkerState.dead).map
          (fun x => WorkerState.ranOcc1 x id)).sum
          + WorkerState.ranOcc1 WorkerState.idle id
        = (s.workers.map (fun x => WorkerState.ranOcc1 x id)).sum
          + WorkerState.ranOcc1 WorkerState.dead id :=
      sum_map_set _ _ _ _ _ hw
    have e1 : WorkerState.claimedOcc1 WorkerState.idle id = 0 := rfl
    have e2 : WorkerState.claimedOcc1 WorkerState.dead id = 0 := rfl
    have e3 : WorkerState.ranOcc1 WorkerState.idle id = 0 := rfl
    have e4 : WorkerState.ranOcc1 WorkerState.dead id = 0 := rfl
    show (s.queue.map Job.id).count id
        + ((s.workers.set w WorkerState.dead).map
            (fun x => WorkerState.claimedOcc1 x id)).sum
        + ((s.workers.set w WorkerState.dead).map
            (fun x => WorkerState.ranOcc1 x id)).sum ≤ 1
    omega

theorem inv_dropSender (s : PoolState) (hq : Inv s) : Inv { s with senderAlive := false } :=
  ⟨hq.regKeysLt, hq.queuePending, hq.claimedPending, hq.ranProcessing, hq.activeOnce⟩

theorem inv_step {s s' : PoolState} {e : Event} (hq : Inv s) (h : Step s e s') : Inv s' := by
  cases h with
  | submit payload => exact inv_submit s payload hq
  | claim w job rest hw hqe => exact inv_claim s w job rest hq hw hqe
  | startJob w job hw => exact inv_startJob s w job hq hw
  | finishJob w id res hw => exact inv_finishJob s w id res hq hw
  | query id => exact hq
  | disconnect w hw hs hqe => exact inv_dead s w hq hw
  | poison w hw => exact inv_dead s w hq hw
  | dropSender => exact inv_dropSender s hq

theorem inv_reach {s : PoolState} {evs : List Event} {t : PoolState}
    (hq : Inv s) (h : Reach s evs t) : Inv t := by
  induction h with
  | refl => exact hq
  | step h1 h2 ih => exact inv_step ih h2

theorem get?_replicate {α : Type} (a : α) (n w : Nat) (x : α)
    (h : (List.replicate n a).get? w = some x) : x = a := by
  induction n generalizing w with
  | zero => simp at h
  | succ n ih =>
    cases w with
    | zero =>
      have : a = x := by simpa [List.replicate] using h
      exact this.symm
    | succ m => exact ih m h

theorem inv_build {n : Nat} {init : PoolState} (h : ThreadPool.build n = Except.ok init) :
    Inv init := by
  unfold ThreadPool.build at h
  by_cases hn : n = 0
  · rw [if_pos hn] at h
    exact absurd h (by simp)
  · rw [if_neg hn] at h
    have hinit := Except.ok.inj h
    have hreg : init.registry = [] := by rw [← hinit]
    have hqueue : init.queue = [] := by rw [← hinit]
    have hworkers : init.workers = List.replicate n WorkerState.idle := by rw [← hinit]
    refine ⟨?_, ?_, ?_, ?_, ?_⟩
    · intro p hp
      rw [hreg] at hp
      simp at hp
    · intro j hj
      rw [hqueue] at hj
      simp at hj
    · intro w j hw
      rw [hworkers] at hw
      have := get?_replicate _ _ _ _ hw
      simp at this
    · intro w id res hw
      rw [hworkers] at hw
      have := get?_replicate _ _ _ _ hw
      simp at this
    · intro id
      have h1 : queueOcc init id = 0 := by
        show (init.queue.map Job.id).count id = 0
        rw [hqueue]
        rfl
      have h2 : claimedOcc init id = 0 := by
        show (init.workers.map (fun x => WorkerState.claimedOcc1 x id)).sum = 0
        rw [hworkers]
        exact sum_map_eq_zero _ _ (fun x hx => by rw [List.eq_of_mem_replicate hx]; rfl)
      have h3 : ranOcc init id = 0 := by
        show (init.workers.map (fun x => WorkerState.ranOcc1 x id)).sum = 0
        rw [hworkers]
        exact sum_map_eq_zero _ _ (fun x hx => by rw [List.eq_of_mem_replicate hx]; rfl)
      omega


theorem statusLE_refl (a : JobStatus) : statusLE a a := Or.inl rfl

theorem statusLE_trans {a b c : JobStatus} (h1 : statusLE a b) (h2 : statusLE b c) :
    statusLE a c := by
  rcases h1 with rfl | h1
  · exact h2
  · rcases h2 with rfl | h2
    · exact Or.inr h1
    · exact Or.inr (Nat.lt_trans h1 h2)

theorem step_mono {s s' : PoolState} {e : Event} (hq : Inv s) (h : Step s e s')
    (id : Nat) (m : JobMetadata) (hm : regFind s.registry id = some m) :
    ∃ m', regFind s'.registry id = some m' ∧ statusLE m.state m'.state := by
  cases h with
  | submit payload =>
    have hlt : id < s.nextId := hq.regKeysLt _ (mem_of_regFind _ _ _ hm)
    refine ⟨m, ?_, statusLE_refl _⟩
    show regFind (regInsert s.registry s.nextId ⟨JobStatus.Pending, none⟩) id = some m
    rw [regFind_insert_ne _ _ _ _ (by omega)]
    exact hm
  | claim w job rest hw hqe => exact ⟨m, hm, statusLE_refl _⟩
  | startJob w job hw =>
    rcases eq_or_ne id job.id with hid | hid
    · subst hid
      have hfind := hq.claimedPending w job hw
      have hm' : m = ⟨JobStatus.Pending, none⟩ := by
        rw [hm] at hfind
        exact Option.some.inj hfind
      refine ⟨⟨JobStatus.Processing, none⟩, ?_, ?_⟩
      · show regFind (preUpdate s.registry job.id) job.id = _
        rw [preUpdate_eq, regFind_update_self, hfind]
        rfl
      · rw [hm']
        exact Or.inr Nat.zero_lt_one
    · refine ⟨m, ?_, statusLE_refl _⟩
      show regFind (preUpdate s.registry job.id) id = some m
      rw [preUpdate_eq, regFind_update_ne _ _ _ _ hid]
      exact hm
  | finishJob w jid res hw =>
    rcases eq_or_ne id jid with hid | hid
    · subst hid
      have hfind := hq.ranProcessing w id res hw
      have hm' : m = ⟨JobStatus.Processing, none⟩ := by
        rw [hm] at hfind
        exact Option.some.inj hfind
      cases res with
      | ok a =>
        refine ⟨⟨JobStatus.Completed, some a⟩, ?_, ?_⟩
        · show regFind (postUpdate s.registry id (Except.ok a)) id = _
          rw [postUpdate_eq, regFind_update_self, hfind]
          rfl
        · rw [hm']
          exact Or.inr (Nat.lt_succ_self 1)
      | error e =>
        refine ⟨⟨JobStatus.Failed e, some e⟩, ?_, ?_⟩
        · show regFind (postUpdate s.registry id (Except.error e)) id = _
          rw [postUpdate_eq, regFind_update_self, hfind]
          rfl
        · rw [hm']
          exact Or.inr (Nat.lt_succ_self 1)
    · refine ⟨m, ?_, statusLE_refl _⟩
      show regFind (postUpdate s.registry jid res) id = some m
      rw [postUpdate_eq, regFind_update_ne _ _ _ _ hid]
      exact hm
  | query qid => exact ⟨m, hm, statusLE_refl _⟩
  | disconnect w hw hs hqe => exact ⟨m, hm, statusLE_refl _⟩
  | poison w hw => exact ⟨m, hm, statusLE_refl _⟩
  | dropSender => exact ⟨m, hm, statusLE_refl _⟩

theorem reach_mono {s : PoolState} {evs : List Event} {t : PoolState}
    (hq : Inv s) (h : Reach s evs t) (id : Nat) (m : JobMetadata)
    (hm : regFind s.registry id = some m) :
    ∃ m', regFind t.registry id = some m' ∧ statusLE m.state m'.state := by
  induction h with
  | refl => exact ⟨m, hm, statusLE_refl _⟩
  | step h1 h2 ih =>
    obtain ⟨m1, hm1, hle1⟩ := ih
    obtain ⟨m2, hm2, hle2⟩ := step_mono (inv_reach hq h1) h2 _ _ hm1
    exact ⟨m2, hm2, statusLE_trans hle1 hle2⟩

theorem nextId_mono_step {s s' : PoolState} {e : Event} (h : Step s e s') :
    s.nextId ≤ s'.nextId := by
  cases h with
  | submit payload => exact Nat.le_succ _
  | claim w job rest hw hqe => exact Nat.le_refl _
  | startJob w job hw => exact Nat.le_refl _
  | finishJob w jid res hw => exact Nat.le_refl _
  | query qid => exact Nat.le_refl _
  | disconnect w hw hs hqe => exact Nat.le_refl _
  | poison w hw => exact Nat.le_refl _
  | dropSender => exact Nat.le_refl _

theorem nextId_mono_reach {s : PoolState} {evs : List Event} {t : PoolState}
    (h : Reach s evs t) : s.nextId ≤ t.nextId := by
  induction h with
  | refl => exact Nat.le_refl _
  | step h1 h2 ih => exact Nat.le_trans ih (nextId_mono_step h2)


theorem countOf_append (f : Event → Option Nat) (evs : List Event) (e : Event) (id : Nat) :
    ((evs ++ [e]).filterMap f).count id
      = (evs.filterMap f).count id + ([e].filterMap f).count id := by
  rw [List.filterMap_append, List.count_append]

theorem count_single (a b : Nat) : ([b] : List Nat).count a = if b = a then 1 else 0 := by
  rcases eq_or_ne b a with h | h
  · simp [h]
  · simp [h, Ne.symm h]

theorem traceCounts_build {n : Nat} {init : PoolState}
    (h : ThreadPool.build n = Except.ok init) : TraceCounts [] init := by
  unfold ThreadPool.build at h
  by_cases hn : n = 0
  · rw [if_pos hn] at h
    exact absurd h (by simp)
  · rw [if_neg hn] at h
    have hinit := Except.ok.inj h
    have hqueue : init.queue = [] := by rw [← hinit]
    have hworkers : init.workers = List.replicate n WorkerState.idle := by rw [← hinit]
    have hq0 : ∀ id, queueOcc init id = 0 := by
      intro id
      show (init.queue.map Job.id).count id = 0
      rw [hqueue]
      rfl
    have hc0 : ∀ id, claimedOcc init id = 0 := by
      intro id
      show (init.workers.map (fun x => WorkerState.claimedOcc1 x id)).sum = 0
      rw [hworkers]
      exact sum_map_eq_zero _ _ (fun x hx => by rw [List.eq_of_mem_replicate hx]; rfl)
    have hr0 : ∀ id, ranOcc init id = 0 := by
      intro id
      show (init.workers.map (fun x => WorkerState.ranOcc1 x id)).sum = 0
      rw [hworkers]
      exact sum_map_eq_zero _ _ (fun x hx => by rw [List.eq_of_mem_replicate hx]; rfl)
    refine ⟨?_, ?_, ?_, ?_, ?_⟩
    · intro id hid
      rfl
    · intro id
      show (0 : Nat) ≤ 1
      omega
    · intro id
      show (0 : Nat) = queueOcc init id + 0
      rw [hq0]
    · intro id
      show (0 : Nat) = claimedOcc init id + 0
      rw [hc0]
    · intro id
      show (0 : Nat) = ranOcc init id + 0
      rw [hr0]

theorem traceCounts_extend_trivial {evs : List Event} {s s' : PoolState} {e : Event}
    (ht : TraceCounts evs s)
    (hnext : s'.nextId = s.nextId)
    (hqocc : ∀ id, queueOcc s' id = queueOcc s id)
    (hcocc : ∀ id, claimedOcc s' id = claimedOcc s id)
    (hrocc : ∀ id, ranOcc s' id = ranOcc s id)
    (hsub : Event.submittedId e = none) (hdel : Event.deliveredId e = none)
    (hcl : Event.claimedId e = none) (hst : Event.startedId e = none)
    (hfin : Event.finishedId e = none) :
    TraceCounts (evs ++ [e]) s' := by
  have g1 : [e].filterMap Event.submittedId = [] := by simp [List.filterMap_cons, hsub]
  have g2 : [e].filterMap Event.deliveredId = [] := by simp [List.filterMap_cons, hdel]
  have g3 : [e].filterMap Event.claimedId = [] := by simp [List.filterMap_cons, hcl]
  have g4 : [e].filterMap Event.startedId = [] := by simp [List.filterMap_cons, hst]
  have g5 : [e].filterMap Event.finishedId = [] := by simp [List.filterMap_cons, hfin]
  refine ⟨?_, ?_, ?_, ?_, ?_⟩
  · intro id hid
    have happ : submitCount (evs ++ [e]) id
        = submitCount evs id + ([e].filterMap Event.submittedId).count id :=
      countOf_append _ _ _ _
    rw [happ, g1]
    have h0 := ht.submitHigh id (by rw [← hnext]; exact hid)
    simpa using h0
  · intro id
    have happ : submitCount (evs ++ [e]) id
        = submitCount evs id + ([e].filterMap Event.submittedId).count id :=
      countOf_append _ _ _ _
    rw [happ, g1]
    have h0 := ht.submitOnce id
    simpa using h0
  · intro id
    have happ1 : deliveredCount (evs ++ [e]) id
        = deliveredCount evs id + ([e].filterMap Event.deliveredId).count id :=
      countOf_append _ _ _ _
    have happ2 : claimCount (evs ++ [e]) id
        = claimCount evs id + ([e].filterMap Event.claimedId).count id :=
      countOf_append _ _ _ _
    rw [happ1, happ2, g2, g3, hqocc]
    have h0 := ht.deliverEq id
    simpa using h0
  · intro id
    have happ1 : claimCount (evs ++ [e]) id
        = claimCount evs id + ([e].filterMap Event.claimedId).count id :=
      countOf_append _ _ _ _
    have happ2 : startCount (evs ++ [e]) id
        = startCount evs id + ([e].filterMap Event.startedId).count id :=
      countOf_append _ _ _ _
    rw [happ1, happ2, g3, g4, hcocc]
    have h0 := ht.claimEq id
    simpa using h0
  · intro id
    have happ1 : startCount (evs ++ [e]) id
        = startCount evs id + ([e].filterMap Event.startedId).count id :=
      countOf_append _ _ _ _
    have happ2 : finishCount (evs ++ [e]) id
        = finishCount evs id + ([e].filterMap Event.finishedId).count id :=
      countOf_append _ _ _ _
    rw [happ1, happ2, g4, g5, hrocc]
    have h0 := ht.startEq id
    simpa using h0

theorem traceCounts_step {evs : List Event} {s s' : PoolState} {e : Event}
    (h : Step s e s') (ht : TraceCounts evs s) :
    TraceCounts (evs ++ [e]) s' := by
  cases h with
  | submit payload =>
    refine ⟨?_, ?_, ?_, ?_, ?_⟩
    · intro id hid
      have hid' : s.nextId + 1 ≤ id := hid
      have happ : submitCount (evs ++ [Event.submit s.nextId payload
            (s.senderAlive && consumerAlive s.workers)]) id
          = submitCount evs id + ([Event.submit s.nextId payload
              (s.senderAlive && consumerAlive s.workers)].filterMap
                Event.submittedId).count id := countOf_append _ _ _ _
      have hsingle : ([Event.submit s.nextId payload
            (s.senderAlive && consumerAlive s.workers)].filterMap
              Event.submittedId).count id
          = if s.nextId = id then 1 else 0 := count_single id s.nextId
      rw [happ, hsingle, if_neg (by omega), ht.submitHigh id (by omega)]
    · intro id
      have happ : submitCount (evs ++ [Event.submit s.nextId payload
            (s.senderAlive && consumerAlive s.workers)]) id
          = submitCount evs id + ([Event.submit s.nextId payload
              (s.senderAlive && consumerAlive s.workers)].filterMap
                Event.submittedId).count id := countOf_append _ _ _ _
      have hsingle : ([Event.submit s.nextId payload
            (s.senderAlive && consumerAlive s.workers)].filterMap
              Event.submittedId).count id
          = if s.nextId = id then 1 else 0 := count_single id s.nextId
      rcases eq_or_ne s.nextId id with hid | hid
      · rw [happ, hsingle, if_pos hid, ht.submitHigh id (by omega)]
      · rw [happ, hsingle, if_neg hid]
        have h0 := ht.submitOnce id
        omega
    · intro id
      cases hcond : s.senderAlive && consumerAlive s.workers with
      | true =>
        have happ1 : deliveredCount (evs ++ [Event.submit s.nextId payload true]) id
            = deliveredCount evs id + ([Event.submit s.nextId payload true].filterMap
                Event.deliveredId).count id := countOf_append _ _ _ _
        have happ2 : claimCount (evs ++ [Event.submit s.nextId payload true]) id
            = claimCount evs id + ([Event.submit s.nextId payload true].filterMap
                Event.claimedId).count id := countOf_append _ _ _ _
        have hD : ([Event.submit s.nextId payload true].filterMap
              Event.deliveredId).count id = if s.nextId = id then 1 else 0 :=
          count_single id s.nextId
        have hc0 : ([Event.submit s.nextId payload true].filterMap
              Event.claimedId).count id = 0 := rfl
        have hqc : queueOcc (ThreadPool.execute s payload).2 id
            = queueOcc s id + (if id = s.nextId then 1 else 0) := by
          show ((ThreadPool.execute s payload).2.queue.map Job.id).count id
              = (s.queue.map Job.id).count id + (if id = s.nextId then 1 else 0)
          rw [execute_queue, if_pos hcond, List.map_append, List.count_append]
          rcases eq_or_ne id s.nextId with hid | hid
          · simp [hid]
          · simp [hid, Ne.symm hid]
        have h0 := ht.deliverEq id
        rw [happ1, happ2, hD, hc0, hqc]
        rcases eq_or_ne id s.nextId with hid | hid
        · rw [if_pos hid.symm, if_pos hid]
          omega
        · rw [if_neg (fun hc => hid hc.symm), if_neg hid]
          omega
      | false =>
        have happ1 : deliveredCount (evs ++ [Event.submit s.nextId payload false]) id
            = deliveredCount evs id + ([Event.submit s.nextId payload false].filterMap
                Event.deliveredId).count id := countOf_append _ _ _ _
        have happ2 : claimCount (evs ++ [Event.submit s.nextId payload false]) id
            = claimCount evs id + ([Event.submit s.nextId payload false].filterMap
                Event.claimedId).count id := countOf_append _ _ _ _
        have hD : ([Event.submit s.nextId payload false].filterMap
              Event.deliveredId).count id = 0 := rfl
        have hc0 : ([Event.submit s.nextId payload false].filterMap
              Event.claimedId).count id = 0 := rfl
        have hqc : queueOcc (ThreadPool.execute s payload).2 id = queueOcc s id := by
          show ((ThreadPool.execute s payload).2.queue.map Job.id).count id
              = (s.queue.map Job.id).count id
          rw [execute_queue, if_neg (by simp [hcond])]
        have h0 := ht.deliverEq id
        rw [happ1, happ2, hD, hc0, hqc]
        omega
    · intro id
      have happ1 : claimCount (evs ++ [Event.submit s.nextId payload
            (s.senderAlive && consumerAlive s.workers)]) id
          = claimCount evs id + ([Event.submit s.nextId payload
              (s.senderAlive && consumerAlive s.workers)].filterMap
                Event.claimedId).count id := countOf_append _ _ _ _
      have happ2 : startCount (evs ++ [Event.submit s.nextId payload
            (s.senderAlive && consumerAlive s.workers)]) id
          = startCount evs id + ([Event.submit s.nextId payload
              (s.senderAlive && consumerAlive s.workers)].filterMap
                Event.startedId).count id := countOf_append _ _ _ _
      have hc0 : ([Event.submit s.nextId payload
            (s.senderAlive && consumerAlive s.workers)].filterMap
              Event.claimedId).count id = 0 := rfl
      have hs0 : ([Event.submit s.nextId payload
            (s.senderAlive && consumerAlive s.workers)].filterMap
              Event.startedId).count id = 0 := rfl
      have hco : claimedOcc (ThreadPool.execute s payload).2 id = claimedOcc s id := rfl
      have h0 := ht.claimEq id
      rw [happ1, happ2, hc0, hs0, hco]
      omega
    · intro id
      have happ1 : startCount (evs ++ [Event.submit s.nextId payload
            (s.senderAlive && consumerAlive s.workers)]) id
          = startCount evs id + ([Event.submit s.nextId payload
              (s.senderAlive && consumerAlive s.workers)].filterMap
                Event.startedId).count id := countOf_append _ _ _ _
      have happ2 : finishCount (evs ++ [Event.submit s.nextId payload
            (s.senderAlive && consumerAlive s.workers)]) id
          = finishCount evs id + ([Event.submit s.nextId payload
              (s.senderAlive && consumerAlive s.workers)].filterMap
                Event.finishedId).count id := countOf_append _ _ _ _
      have hs0 : ([Event.submit s.nextId payload
            (s.senderAlive && consumerAlive s.workers)].filterMap
              Event.startedId).count id = 0 := rfl
      have hf0 : ([Event.submit s.nextId payload
            (s.senderAlive && consumerAlive s.workers)].filterMap
              Event.finishedId).count id = 0 := rfl
      have hro : ranOcc (ThreadPool.execute s payload).2 id = ranOcc s id := rfl
      have h0 := ht.startEq id
      rw [happ1, happ2, hs0, hf0, hro]
      omega
  | claim w job rest hw hqe =>
    refine ⟨?_, ?_, ?_, ?_, ?_⟩
    · intro id hid
      have happ : submitCount (evs ++ [Event.claim w job]) id
          = submitCount evs id
            + ([Event.claim w job].filterMap Event.submittedId).count id :=
        countOf_append _ _ _ _
      have h1 : ([Event.claim w job].filterMap Event.submittedId).count id = 0 := rfl
      rw [happ, h1, ht.submitHigh id hid]
    · intro id
      have happ : submitCount (evs ++ [Event.claim w job]) id
          = submitCount evs id
            + ([Event.claim w job].filterMap Event.submittedId).count id :=
        countOf_append _ _ _ _
      have h1 : ([Event.claim w job].filterMap Event.submittedId).count id = 0 := rfl
      rw [happ, h1]
      have h0 := ht.submitOnce id
      omega
    · intro id
      have happ1 : deliveredCount (evs ++ [Event.claim w job]) id
          = deliveredCount evs id
            + ([Event.claim w job].filterMap Event.deliveredId).count id :=
        countOf_append _ _ _ _
      have h1 : ([Event.claim w job].filterMap Event.deliveredId).count id = 0 := rfl
      have happ2 : claimCount (evs ++ [Event.claim w job]) id
          = claimCount evs id
            + ([Event.claim w job].filterMap Event.claimedId).count id :=
        countOf_append _ _ _ _
      have h2 : ([Event.claim w job].filterMap Event.claimedId).count id
          = if job.id = id then 1 else 0 := count_single id job.id
      have hqold : (s.queue.map Job.id).count id
          = (if id = job.id then 1 else 0) + (rest.map Job.id).count id := by
        rw [hqe, List.map_cons, List.count_cons]
        rcases eq_or_ne id job.id with hid | hid
        · simp [hid, Nat.add_comm]
        · simp [hid, Ne.symm hid]
      have hqnew : queueOcc { s with queue := rest
                                     workers := s.workers.set w (WorkerState.claimed job) } id
          = (rest.map Job.id).count id := rfl
      have h0 : deliveredCount evs id
          = (s.queue.map Job.id).count id + claimCount evs id := ht.deliverEq id
      rw [happ1, happ2, h1, h2, hqnew]
      rcases eq_or_ne id job.id with hid | hid
      · rw [if_pos hid] at hqold
        rw [if_pos hid.symm]
        omega
      · rw [if_neg hid] at hqold
        rw [if_neg (fun hc => hid hc.symm)]
        omega
    · intro id
      have happ2 : claimCount (evs ++ [Event.claim w job]) id
          = claimCount evs id
            + ([Event.claim w job].filterMap Event.claimedId).count id :=
        countOf_append _ _ _ _
      have h2 : ([Event.claim w job].filterMap Event.claimedId).count id
          = if job.id = id then 1 else 0 := count_single id job.id
      have happ3 : startCount (evs ++ [Event.claim w job]) id
          = startCount evs id
            + ([Event.claim w job].filterMap Event.startedId).count id :=
        countOf_append _ _ _ _
      have h3 : ([Event.claim w job].filterMap Event.startedId).count id = 0 := rfl
      have hcs : ((s.workers.set w (WorkerState.claimed job)).map
            (fun x => WorkerState.claimedOcc1 x id)).sum
            + WorkerState.claimedOcc1 WorkerState.idle id
          = (s.workers.map (fun x => WorkerState.claimedOcc1 x id)).sum
            + WorkerState.claimedOcc1 (WorkerState.claimed job) id :=
        sum_map_set _ _ _ _ _ hw
      have e1 : WorkerState.claimedOcc1 WorkerState.idle id = 0 := rfl
      have e2 : WorkerState.claimedOcc1 (WorkerState.claimed job) id
          = if job.id = id then 1 else 0 := rfl
      have h0 : claimCount evs id
          = (s.workers.map (fun x => WorkerState.claimedOcc1 x id)).sum
            + startCount evs id := ht.claimEq id
      show claimCount (evs ++ [Event.claim w job]) id
          = ((s.workers.set w (WorkerState.claimed job)).map
              (fun x => WorkerState.claimedOcc1 x id)).sum
            + startCount (evs ++ [Event.claim w job]) id
      rw [happ2, happ3, h2, h3]
      rcases eq_or_ne job.id id with hid | hid
      · rw [if_pos hid] at e2 ⊢
        omega
      · rw [if_neg hid] at e2 ⊢
        omega
    · intro id
      have happ3 : startCount (evs ++ [Event.claim w job]) id
          = startCount evs id
            + ([Event.claim w job].filterMap Event.startedId).count id :=
        countOf_append _ _ _ _
      have h3 : ([Event.claim w job].filterMap Event.startedId).count id = 0 := rfl
      have happ4 : finishCount (evs ++ [Event.claim w job]) id
          = finishCount evs id
            + ([Event.claim w job].filterMap Event.finishedId).count id :=
        countOf_append _ _ _ _
      have h4 : ([Event.claim w job].filterMap Event.finishedId).count id = 0 := rfl
      have hrs : ((s.workers.set w (WorkerState.claimed job)).map
            (fun x => WorkerState.ranOcc1 x id)).sum
            + WorkerState.ranOcc1 WorkerState.idle id
          = (s.workers.map (fun x => WorkerState.ranOcc1 x id)).sum
            + WorkerState.ranOcc1 (WorkerState.claimed job) id :=
        sum_map_set _ _ _ _ _ hw
      have e3 : WorkerState.ranOcc1 WorkerState.idle id = 0 := rfl
      have e4 : WorkerState.ranOcc1 (WorkerState.claimed job) id = 0 := rfl
      have h0 : startCount evs id
          = (s.workers.map (fun x => WorkerState.ranOcc1 x id)).sum
            + finishCount evs id := ht.startEq id
      show startCount (evs ++ [Event.claim w job]) id
          = ((s.workers.set w (WorkerState.claimed job)).map
              (fun x => WorkerState.ranOcc1 x id)).sum
            + finishCount (evs ++ [Event.claim w job]) id
      rw [happ3, happ4, h3, h4]
      omega
  | startJob w job hw =>
    refine ⟨?_, ?_, ?_, ?_, ?_⟩
    · intro id hid
      have happ : submitCount (evs ++ [Event.startJob w job.id]) id
          = submitCount evs id
            + ([Event.startJob w job.id].filterMap Event.submittedId).count id :=
        countOf_append _ _ _ _
      have h1 : ([Event.startJob w job.id].filterMap Event.submittedId).count id = 0 := rfl
      rw [happ, h1, ht.submitHigh id hid]
    · intro id
      have happ : submitCount (evs ++ [Event.startJob w job.id]) id
          = submitCount evs id
            + ([Event.startJob w job.id].filterMap Event.submittedId).count id :=
        countOf_append _ _ _ _
      have h1 : ([Event.startJob w job.id].filterMap Event.submittedId).count id = 0 := rfl
      rw [happ, h1]
      have h0 := ht.submitOnce id
      omega
    · intro id
      have happ1 : deliveredCount (evs ++ [Event.startJob w job.id]) id
          = deliveredCount evs id
            + ([Event.startJob w job.id].filterMap Event.deliveredId).count id :=
        countOf_append _ _ _ _
      have h1 : ([Event.startJob w job.id].filterMap Event.deliveredId).count id = 0 := rfl
      have happ2 : claimCount (evs ++ [Event.startJob w job.id]) id
          = claimCount evs id
            + ([Event.startJob w job.id].filterMap Event.claimedId).count id :=
        countOf_append _ _ _ _
      have h2 : ([Event.startJob w job.id].filterMap Event.claimedId).count id = 0 := rfl
      have hqocc : queueOcc
          { s with registry := preUpdate s.registry job.id
                   workers := s.workers.set w (WorkerState.ran job.id job.payload) } id
          = queueOcc s id := rfl
      have h0 := ht.deliverEq id
      rw [happ1, happ2, h1, h2, hqocc]
      omega
    · intro id
      have happ2 : claimCount (evs ++ [Event.startJob w job.id]) id
          = claimCount evs id
            + ([Event.startJob w job.id].filterMap Event.claimedId).count id :=
        countOf_append _ _ _ _
      have h2 : ([Event.startJob w job.id].filterMap Event.claimedId).count id = 0 := rfl
      have happ3 : startCount (evs ++ [Event.startJob w job.id]) id
          = startCount evs id
            + ([Event.startJob w job.id].filterMap Event.startedId).count id :=
        countOf_append _ _ _ _
      have h3 : ([Event.startJob w job.id].filterMap Event.startedId).count id
          = if job.id = id then 1 else 0 := count_single id job.id
      have hcs : ((s.workers.set w (WorkerState.ran job.id job.payload)).map
            (fun x => WorkerState.claimedOcc1 x id)).sum
            + WorkerState.claimedOcc1 (WorkerState.claimed job) id
          = (s.workers.map (fun x => WorkerState.claimedOcc1 x id)).sum
            + WorkerState.claimedOcc1 (WorkerState.ran job.id job.payload) id :=
        sum_map_set _ _ _ _ _ hw
      have e1 : WorkerState.claimedOcc1 (WorkerState.ran job.id job.payload) id = 0 := rfl
      have e2 : WorkerState.claimedOcc1 (WorkerState.claimed job) id
          = if job.id = id then 1 else 0 := rfl
      have h0 : claimCount evs id
          = (s.workers.map (fun x => WorkerState.claimedOcc1 x id)).sum
            + startCount evs id := ht.claimEq id
      show claimCount (evs ++ [Event.startJob w job.id]) id
          = ((s.workers.set w (WorkerState.ran job.id job.payload)).map
              (fun x => WorkerState.claimedOcc1 x id)).sum
            + startCount (evs ++ [Event.startJob w job.id]) id
      rw [happ2, happ3, h2, h3]
      rcases eq_or_ne job.id id with hid | hid
      · rw [if_pos hid] at e2 ⊢
        omega
      · rw [if_neg hid] at e2 ⊢
        omega
    · intro id
      have happ3 : startCount (evs ++ [Event.startJob w job.id]) id
          = startCount evs id
            + ([Event.startJob w job.id].filterMap Event.startedId).count id :=
        countOf_append _ _ _ _
      have h3 : ([Event.startJob w job.id].filterMap Event.startedId).count id
          = if job.id = id then 1 else 0 := count_single id job.id
      have happ4 : finishCount (evs ++ [Event.startJob w job.id]) id
          = finishCount evs id
            + ([Event.startJob w job.id].filterMap Event.finishedId).count id :=
        countOf_append _ _ _ _
      have h4 : ([Event.startJob w job.id].filterMap Event.finishedId).count id = 0 := rfl
      have hrs : ((s.workers.set w (WorkerState.ran job.id job.payload)).map
            (fun x => WorkerState.ranOcc1 x id)).sum
            + WorkerState.ranOcc1 (WorkerState.claimed job) id
          = (s.workers.map (fun x => WorkerState.ranOcc1 x id)).sum
            + WorkerState.ranOcc1 (WorkerState.ran job.id job.payload) id :=
        sum_map_set _ _ _ _ _ hw
      have e3 : WorkerState.ranOcc1 (WorkerState.claimed job) id = 0 := rfl
      have e4 : WorkerState.ranOcc1 (WorkerState.ran job.id job.payload) id
          = if job.id = id then 1 else 0 := rfl
      have h0 : startCount evs id
          = (s.workers.map (fun x => WorkerState.ranOcc1 x id)).sum
            + finishCount evs id := ht.startEq id
      show startCount (evs ++ [Event.startJob w job.id]) id
          = ((s.workers.set w (WorkerState.ran job.id job.payload)).map
              (fun x => WorkerState.ranOcc1 x id)).sum
            + finishCount (evs ++ [Event.startJob w job.id]) id
      rw [happ3, happ4, h4]
      rcases eq_or_ne job.id id with hid | hid
      · rw [h3, if_pos hid]
        rw [if_pos hid] at e4
        omega
      · rw [h3, if_neg hid]
        rw [if_neg hid] at e4
        omega
  | finishJob w jid res hw =>
    refine ⟨?_, ?_, ?_, ?_, ?_⟩
    · intro id hid
      have happ : submitCount (evs ++ [Event.finishJob w jid]) id
          = submitCount evs id
            + ([Event.finishJob w jid].filterMap Event.submittedId).count id :=
        countOf_append _ _ _ _
      have h1 : ([Event.finishJob w jid].filterMap Event.submittedId).count id = 0 := rfl
      rw [happ, h1, ht.submitHigh id hid]
    · intro id
      have happ : submitCount (evs ++ [Event.finishJob w jid]) id
          = submitCount evs id
            + ([Event.finishJob w jid].filterMap Event.submittedId).count id :=
        countOf_append _ _ _ _
      have h1 : ([Event.finishJob w jid].filterMap Event.submittedId).count id = 0 := rfl
      rw [happ, h1]
      have h0 := ht.submitOnce id
      omega
    · intro id
      have happ1 : deliveredCount (evs ++ [Event.finishJob w jid]) id
          = deliveredCount evs id
            + ([Event.finishJob w jid].filterMap Event.deliveredId).count id :=
        countOf_append _ _ _ _
      have h1 : ([Event.finishJob w jid].filterMap Event.deliveredId).count id = 0 := rfl
      have happ2 : claimCount (evs ++ [Event.finishJob w jid]) id
          = claimCount evs id
            + ([Event.finishJob w jid].filterMap Event.claimedId).count id :=
        countOf_append _ _ _ _
      have h2 : ([Event.finishJob w jid].filterMap Event.claimedId).count id = 0 := rfl
      have hqocc : queueOcc
          { s with registry := postUpdate s.registry jid res
                   workers := s.workers.set w WorkerState.idle } id = queueOcc s id := rfl
      have h0 := ht.deliverEq id
      rw [happ1, happ2, h1, h2, hqocc]
      omega
    · intro id
      have happ2 : claimCount (evs ++ [Event.finishJob w jid]) id
          = claimCount evs id
            + ([Event.finishJob w jid].filterMap Event.claimedId).count id :=
        countOf_append _ _ _ _
      have h2 : ([Event.finishJob w jid].filterMap Event.claimedId).count id = 0 := rfl
      have happ3 : startCount (evs ++ [Event.finishJob w jid]) id
          = startCount evs id
            + ([Event.finishJob w jid].filterMap Event.startedId).count id :=
        countOf_append _ _ _ _
      have h3 : ([Event.finishJob w jid].filterMap Event.startedId).count id = 0 := rfl
      have hcs : ((s.workers.set w WorkerState.idle).map
            (fun x => WorkerState.claimedOcc1 x id)).sum
            + WorkerState.claimedOcc1 (WorkerState.ran jid res) id
          = (s.workers.map (fun x => WorkerState.claimedOcc1 x id)).sum
            + WorkerState.claimedOcc1 WorkerState.idle id :=
        sum_map_set _ _ _ _ _ hw
      have e1 : WorkerState.claimedOcc1 (WorkerState.ran jid res) id = 0 := rfl
      have e2 : WorkerState.claimedOcc1 WorkerState.idle id = 0 := rfl
      have h0 : claimCount evs id
          = (s.workers.map (fun x => WorkerState.claimedOcc1 x id)).sum
            + startCount evs id := ht.claimEq id
      show claimCount (evs ++ [Event.finishJob w jid]) id
          = ((s.workers.set w WorkerState.idle).map
              (fun x => WorkerState.claimedOcc1 x id)).sum
            + startCount (evs ++ [Event.finishJob w jid]) id
      rw [happ2, happ3, h2, h3]
      omega
    · intro id
      have happ3 : startCount (evs ++ [Event.finishJob w jid]) id
          = startCount evs id
            + ([Event.finishJob w jid].filterMap Event.startedId).count id :=
        countOf_append _ _ _ _
      have h3 : ([Event.finishJob w jid].filterMap Event.startedId).count id = 0 := rfl
      have happ4 : finishCount (evs ++ [Event.finishJob w jid]) id
          = finishCount evs id
            + ([Event.finishJob w jid].filterMap Event.finishedId).count id :=
        countOf_append _ _ _ _
      have h4 : ([Event.finishJob w jid].filterMap Event.finishedId).count id
          = if jid = id then 1 else 0 := count_single id jid
      have hrs : ((s.workers.set w WorkerState.idle).map
            (fun x => WorkerState.ranOcc1 x id)).sum
            + WorkerState.ranOcc1 (WorkerState.ran jid res) id
          = (s.workers.map (fun x => WorkerState.ranOcc1 x id)).sum
            + WorkerState.ranOcc1 WorkerState.idle id :=
        sum_map_set _ _ _ _ _ hw
      have e3 : WorkerState.ranOcc1 (WorkerState.ran jid res) id
          = if jid = id then 1 else 0 := rfl
      have e4 : WorkerState.ranOcc1 WorkerState.idle id = 0 := rfl
      have h0 : startCount evs id
          = (s.workers.map (fun x => WorkerState.ranOcc1 x id)).sum
            + finishCount evs id := ht.startEq id
      show startCount (evs ++ [Event.finishJob w jid]) id
          = ((s.workers.set w WorkerState.idle).map
              (fun x => WorkerState.ranOcc1 x id)).sum
            + finishCount (evs ++ [Event.finishJob w jid]) id
      rw [happ3, happ4, h3, h4]
      rcases eq_or_ne jid id with hid | hid
      · rw [if_pos hid] at e3 ⊢
        omega
      · rw [if_neg hid] at e3 ⊢
        omega
  | query qid =>
    exact traceCounts_extend_trivial ht rfl (fun id => rfl) (fun id => rfl) (fun id => rfl)
      rfl rfl rfl rfl rfl
  | disconnect w hw hs hqe =>
    refine traceCounts_extend_trivial ht rfl (fun id => rfl) (fun id => ?_) (fun id => ?_)
      rfl rfl rfl rfl rfl
    · have hcs : ((s.workers.set w WorkerState.dead).map
            (fun x => WorkerState.claimedOcc1 x id)).sum
            + WorkerState.claimedOcc1 WorkerState.idle id
          = (s.workers.map (fun x => WorkerState.claimedOcc1 x id)).sum
            + WorkerState.claimedOcc1 WorkerState.dead id :=
        sum_map_set _ _ _ _ _ hw
      have e1 : WorkerState.claimedOcc1 WorkerState.idle id = 0 := rfl
      have e2 : WorkerState.claimedOcc1 WorkerState.dead id = 0 := rfl
      show ((s.workers.set w WorkerState.dead).map
            (fun x => WorkerState.claimedOcc1 x id)).sum
          = (s.workers.map (fun x => WorkerState.claimedOcc1 x id)).sum
      omega
    · have hrs : ((s.workers.set w WorkerState.dead).map
            (fun x => WorkerState.ranOcc1 x id)).sum
            + WorkerState.ranOcc1 WorkerState.idle id
          = (s.workers.map (fun x => WorkerState.ranOcc1 x id)).sum
            + WorkerState.ranOcc1 WorkerState.dead id :=
        sum_map_set _ _ _ _ _ hw
      have e3 : WorkerState.ranOcc1 WorkerState.idle id = 0 := rfl
      have e4 : WorkerState.ranOcc1 WorkerState.dead id = 0 := rfl
      show ((s.workers.set w WorkerState.dead).map
            (fun x => WorkerState.ranOcc1 x id)).sum
          = (s.workers.map (fun x => WorkerState.ranOcc1 x id)).sum
      omega
  | poison w hw =>
    refine traceCounts_extend_trivial ht rfl (fun id => rfl) (fun id => ?_) (fun id => ?_)
      rfl rfl rfl rfl rfl
    · have hcs : ((s.workers.set w WorkerState.dead).map
            (fun x => WorkerState.claimedOcc1 x id)).sum
            + WorkerState.claimedOcc1 WorkerState.idle id
          = (s.workers.map (fun x => WorkerState.claimedOcc1 x id)).sum
            + WorkerState.claimedOcc1 WorkerState.dead id :=
        sum_map_set _ _ _ _ _ hw
      have e1 : WorkerState.claimedOcc1 WorkerState.idle id = 0 := rfl
      have e2 : WorkerState.claimedOcc1 WorkerState.dead id = 0 := rfl
      show ((s.workers.set w WorkerState.dead).map
            (fun x => WorkerState.claimedOcc1 x id)).sum
          = (s.workers.map (fun x => WorkerState.claimedOcc1 x id)).sum
      omega
    · have hrs : ((s.workers.set w WorkerState.dead).map
            (fun x => WorkerState.ranOcc1 x id)).sum
            + WorkerState.ranOcc1 WorkerState.idle id
          = (s.workers.map (fun x => WorkerState.ranOcc1 x id)).sum
            + WorkerState.ranOcc1 WorkerState.dead id :=
        sum_map_set _ _ _ _ _ hw
      have e3 : WorkerState.ranOcc1 WorkerState.idle id = 0 := rfl
      have e4 : WorkerState.ranOcc1 WorkerState.dead id = 0 := rfl
      show ((s.workers.set w WorkerState.dead).map
            (fun x => WorkerState.ranOcc1 x id)).sum
          = (s.workers.map (fun x => WorkerState.ranOcc1 x id)).sum
      omega
  | dropSender =>
    exact traceCounts_extend_trivial ht rfl (fun id => rfl) (fun id => rfl) (fun id => rfl)
      rfl rfl rfl rfl rfl

theorem traceCounts_reach {n : Nat} {init : PoolState} {evs : List Event} {s : PoolState}
    (hb : ThreadPool.build n = Except.ok init) (h : Reach init evs s) :
    TraceCounts evs s := by
  induction h with
  | refl => exact traceCounts_build hb
  | step h1 h2 ih => exact traceCounts_step h2 ih


theorem frozen_step {s s' : PoolState} {e : Event} (h : Step s e s') {id : Nat}
    (hf : Frozen s id) : Frozen s' id := by
  obtain ⟨hreg, hqo, hco, hro, hlt⟩ := hf
  have hqo' : (s.queue.map Job.id).count id = 0 := hqo
  have hco' : (s.workers.map (fun x => WorkerState.claimedOcc1 x id)).sum = 0 := hco
  have hro' : (s.workers.map (fun x => WorkerState.ranOcc1 x id)).sum = 0 := hro
  cases h with
  | submit payload =>
    refine ⟨?_, ?_, hco, hro, by show id < s.nextId + 1; omega⟩
    · show regFind (regInsert s.registry s.nextId ⟨JobStatus.Pending, none⟩) id = _
      rw [regFind_insert_ne _ _ _ _ (by omega)]
      exact hreg
    · show ((ThreadPool.execute s payload).2.queue.map Job.id).count id = 0
      rw [execute_queue]
      cases hcond : s.senderAlive && consumerAlive s.workers with
      | true =>
        rw [if_pos rfl, List.map_append, List.count_append]
        have h2 : (([(⟨s.nextId, payload⟩ : Job)] : List Job).map Job.id).count id = 0 := by
          show ([s.nextId] : List Nat).count id = 0
          rw [count_single, if_neg (by omega)]
        omega
      | false =>
        rw [if_neg (by simp)]
        exact hqo'
  | claim w job rest hw hqe =>
    have hjob : job.id ≠ id := by
      intro hc
      have hmem : job ∈ s.queue := by rw [hqe]; exact List.mem_cons_self _ _
      have hpos := queueOcc_pos_of_mem s job hmem
      rw [hc] at hpos
      have : (1 : Nat) ≤ queueOcc s id := hpos
      omega
    refine ⟨hreg, ?_, ?_, ?_, hlt⟩
    · show (rest.map Job.id).count id = 0
      rw [hqe, List.map_cons, List.count_cons] at hqo'
      omega
    · have hcs : ((s.workers.set w (WorkerState.claimed job)).map
            (fun x => WorkerState.claimedOcc1 x id)).sum
            + WorkerState.claimedOcc1 WorkerState.idle id
          = (s.workers.map (fun x => WorkerState.claimedOcc1 x id)).sum
            + WorkerState.claimedOcc1 (WorkerState.claimed job) id :=
        sum_map_set _ _ _ _ _ hw
      have e1 : WorkerState.claimedOcc1 WorkerState.idle id = 0 := rfl
      have e2 : WorkerState.claimedOcc1 (WorkerState.claimed job) id = 0 := by
        show (if job.id = id then 1 else 0) = 0
        rw [if_neg hjob]
      show ((s.workers.set w (WorkerState.claimed job)).map
          (fun x => WorkerState.claimedOcc1 x id)).sum = 0
      omega
    · have hrs : ((s.workers.set w (WorkerState.claimed job)).map
            (fun x => WorkerState.ranOcc1 x id)).sum
            + WorkerState.ranOcc1 WorkerState.idle id
          = (s.workers.map (fun x => WorkerState.ranOcc1 x id)).sum
            + WorkerState.ranOcc1 (WorkerState.claimed job) id :=
        sum_map_set _ _ _ _ _ hw
      have e1 : WorkerState.ranOcc1 WorkerState.idle id = 0 := rfl
      have e2 : WorkerState.ranOcc1 (WorkerState.claimed job) id = 0 := rfl
      show ((s.workers.set w (WorkerState.claimed job)).map
          (fun x => WorkerState.ranOcc1 x id)).sum = 0
      omega
  | startJob w job hw =>
    have hjob : job.id ≠ id := by
      intro hc
      have hle : WorkerState.claimedOcc1 (WorkerState.claimed job) id
          ≤ (s.workers.map (fun x => WorkerState.claimedOcc1 x id)).sum :=
        le_sum_map_of_get? (fun x => WorkerState.claimedOcc1 x id) s.workers w _ hw
      have e2 : WorkerState.claimedOcc1 (WorkerState.claimed job) id = 1 := by
        show (if job.id = id then 1 else 0) = 1
        rw [if_pos hc]
      omega
    refine ⟨?_, hqo, ?_, ?_, hlt⟩
    · show regFind (preUpdate s.registry job.id) id = _
      rw [preUpdate_eq, regFind_update_ne _ _ _ _ (fun hcc => hjob hcc.symm)]
      exact hreg
    · have hcs : ((s.workers.set w (WorkerState.ran job.id job.payload)).map
            (fun x => WorkerState.claimedOcc1 x id)).sum
            + WorkerState.claimedOcc1 (WorkerState.claimed job) id
          = (s.workers.map (fun x => WorkerState.claimedOcc1 x id)).sum
            + WorkerState.claimedOcc1 (WorkerState.ran job.id job.payload) id :=
        sum_map_set _ _ _ _ _ hw
      have e1 : WorkerState.claimedOcc1 (WorkerState.ran job.id job.payload) id = 0 := rfl
      show ((s.workers.set w (WorkerState.ran job.id job.payload)).map
          (fun x => WorkerState.claimedOcc1 x id)).sum = 0
      omega
    · have hrs : ((s.workers.set w (WorkerState.ran job.id job.payload)).map
            (fun x => WorkerState.ranOcc1 x id)).sum
            + WorkerState.ranOcc1 (WorkerState.claimed job) id
          = (s.workers.map (fun x => WorkerState.ranOcc1 x id)).sum
            + WorkerState.ranOcc1 (WorkerState.ran job.id job.payload) id :=
        sum_map_set _ _ _ _ _ hw
      have e1 : WorkerState.ranOcc1 (WorkerState.claimed job) id = 0 := rfl
      have e2 : WorkerState.ranOcc1 (WorkerState.ran job.id job.payload) id = 0 := by
        show (if job.id = id then 1 else 0) = 0
        rw [if_neg hjob]
      show ((s.workers.set w (WorkerState.ran job.id job.payload)).map
          (fun x => WorkerState.ranOcc1 x id)).sum = 0
      omega
  | finishJob w jid res hw =>
    have hjid : jid ≠ id := by
      intro hc
      have hle : WorkerState.ranOcc1 (WorkerState.ran jid res) id
          ≤ (s.workers.map (fun x => WorkerState.ranOcc1 x id)).sum :=
        le_sum_map_of_get? (fun x => WorkerState.ranOcc1 x id) s.workers w _ hw
      have e2 : WorkerState.ranOcc1 (WorkerState.ran jid res) id = 1 := by
        show (if jid = id then 1 else 0) = 1
        rw [if_pos hc]
      omega
    refine ⟨?_, hqo, ?_, ?_, hlt⟩
    · show regFind (postUpdate s.registry jid res) id = _
      rw [postUpdate_eq, regFind_update_ne _ _ _ _ (fun hcc => hjid hcc.symm)]
      exact hreg
    · have hcs : ((s.workers.set w WorkerState.idle).map
            (fun x => WorkerState.claimedOcc1 x id)).sum
            + WorkerState.claimedOcc1 (WorkerState.ran jid res) id
          = (s.workers.map (fun x => WorkerState.claimedOcc1 x id)).sum
            + WorkerState.claimedOcc1 WorkerState.idle id :=
        sum_map_set _ _ _ _ _ hw
      have e1 : WorkerState.claimedOcc1 (WorkerState.ran jid res) id = 0 := rfl
      have e2 : WorkerState.claimedOcc1 WorkerState.idle id = 0 := rfl
      show ((s.workers.set w WorkerState.idle).map
          (fun x => WorkerState.claimedOcc1 x id)).sum = 0
      omega
    · have hrs : ((s.workers.set w WorkerState.idle).map
            (fun x => WorkerState.ranOcc1 x id)).sum
            + WorkerState.ranOcc1 (WorkerState.ran jid res) id
          = (s.workers.map (fun x => WorkerState.ranOcc1 x id)).sum
            + WorkerState.ranOcc1 WorkerState.idle id :=
        sum_map_set _ _ _ _ _ hw
      have e1 : WorkerState.ranOcc1 WorkerState.idle id = 0 := rfl
      show ((s.workers.set w WorkerState.idle).map
          (fun x => WorkerState.ranOcc1 x id)).sum = 0
      omega
  | query qid => exact ⟨hreg, hqo, hco, hro, hlt⟩
  | disconnect w hw hs hqe =>
    refine ⟨hreg, hqo, ?_, ?_, hlt⟩
    · have hcs : ((s.workers.set w WorkerState.dead).map
            (fun x => WorkerState.claimedOcc1 x id)).sum
            + WorkerState.claimedOcc1 WorkerState.idle id
          = (s.workers.map (fun x => WorkerState.claimedOcc1 x id)).sum
            + WorkerState.claimedOcc1 WorkerState.dead id :=
        sum_map_set _ _ _ _ _ hw
      have e1 : WorkerState.claimedOcc1 WorkerState.idle id = 0 := rfl
      have e2 : WorkerState.claimedOcc1 WorkerState.dead id = 0 := rfl
      show ((s.workers.set w WorkerState.dead).map
          (fun x => WorkerState.claimedOcc1 x id)).sum = 0
      omega
    · have hrs : ((s.workers.set w WorkerState.dead).map
            (fun x => WorkerState.ranOcc1 x id)).sum
            + WorkerState.ranOcc1 WorkerState.idle id
          = (s.workers.map (fun x => WorkerState.ranOcc1 x id)).sum
            + WorkerState.ranOcc1 WorkerState.dead id :=
        sum_map_set _ _ _ _ _ hw
      have e1 : WorkerState.ranOcc1 WorkerState.idle id = 0 := rfl
      have e2 : WorkerState.ranOcc1 WorkerState.dead id = 0 := rfl
      show ((s.workers.set w WorkerState.dead).map
          (fun x => WorkerState.ranOcc1 x id)).sum = 0
      omega
  | poison w hw =>
    refine ⟨hreg, hqo, ?_, ?_, hlt⟩
    · have hcs : ((s.workers.set w WorkerState.dead).map
            (fun x => WorkerState.claimedOcc1 x id)).sum
            + WorkerState.claimedOcc1 WorkerState.idle id
          = (s.workers.map (fun x => WorkerState.claimedOcc1 x id)).sum
            + WorkerState.claimedOcc1 WorkerState.dead id :=
        sum_map_set _ _ _ _ _ hw
      have e1 : WorkerState.claimedOcc1 WorkerState.idle id = 0 := rfl
      have e2 : WorkerState.claimedOcc1 WorkerState.dead id = 0 := rfl
      show ((s.workers.set w WorkerState.dead).map
          (fun x => WorkerState.claimedOcc1 x id)).sum = 0
      omega
    · have hrs : ((s.workers.set w WorkerState.dead).map
            (fun x => WorkerState.ranOcc1 x id)).sum
            + WorkerState.ranOcc1 WorkerState.idle id
          = (s.workers.map (fun x => WorkerState.ranOcc1 x id)).sum
            + WorkerState.ranOcc1 WorkerState.dead id :=
        sum_map_set _ _ _ _ _ hw
      have e1 : WorkerState.ranOcc1 WorkerState.idle id = 0 := rfl
      have e2 : WorkerState.ranOcc1 WorkerState.dead id = 0 := rfl
      show ((s.workers.set w WorkerState.dead).map
          (fun x => WorkerState.ranOcc1 x id)).sum = 0
      omega
  | dropSender => exact ⟨hreg, hqo, hco, hro, hlt⟩

theorem frozen_reach {s : PoolState} {evs : List Event} {t : PoolState}
    (h : Reach s evs t) {id : Nat} (hf : Frozen s id) : Frozen t id := by
  induction h with
  | refl => exact hf
  | step h1 h2 ih => exact frozen_step h2 ih


theorem deliver_le_submit (evs : List Event) (id : Nat) :
    deliveredCount evs id ≤ submitCount evs id := by
  induction evs with
  | nil => exact Nat.le_refl 0
  | cons e rest ih =>
    have ih' : (rest.filterMap Event.deliveredId).count id
        ≤ (rest.filterMap Event.submittedId).count id := ih
    cases e with
    | submit i p d =>
      cases d with
      | true =>
        show ((i :: rest.filterMap Event.deliveredId)).count id
            ≤ ((i :: rest.filterMap Event.submittedId)).count id
        rw [List.count_cons, List.count_cons]
        omega
      | false =>
        show ((rest.filterMap Event.deliveredId)).count id
            ≤ ((i :: rest.filterMap Event.submittedId)).count id
        rw [List.count_cons]
        omega
    | claim w j => exact ih'
    | startJob w i => exact ih'
    | finishJob w i => exact ih'
    | query i r => exact ih'
    | disconnect w => exact ih'
    | poison w => exact ih'
    | dropSender => exact ih'


theorem wBuild : ThreadPool.build 1 = Except.ok wInit := rfl

theorem wStep1 : Step wInit (Event.submit 0 (Except.ok "x") true) wS1 :=
  Step.submit wInit (Except.ok "x")

theorem wStep2 : Step wS1 (Event.claim 0 wJob) wS2 :=
  Step.claim wS1 0 wJob [] rfl rfl

theorem wStep3 : Step wS2 (Event.startJob 0 0) wS3 :=
  Step.startJob wS2 0 wJob rfl

theorem wStep4 : Step wS3 (Event.finishJob 0 0) wS4 :=
  Step.finishJob wS3 0 0 (Except.ok "x") rfl

theorem wReach1 : Reach wInit [Event.submit 0 (Except.ok "x") true] wS1 :=
  Reach.step (Reach.refl wInit) wStep1

theorem wReach13 : Reach wS1 [Event.claim 0 wJob, Event.startJob 0 0] wS3 :=
  Reach.step (Reach.step (Reach.refl wS1) wStep2) wStep3

theorem wReach03 : Reach wInit
    [Event.submit 0 (Except.ok "x") true, Event.claim 0 wJob, Event.startJob 0 0] wS3 :=
  Reach.step (Reach.step (Reach.step (Reach.refl wInit) wStep1) wStep2) wStep3

theorem wReach04 : Reach wInit
    [Event.submit 0 (Except.ok "x") true, Event.claim 0 wJob, Event.startJob 0 0,
      Event.finishJob 0 0] wS4 :=
  Reach.step wReach03 wStep4

theorem wReachDead : Reach wInit [Event.poison 0] wDead :=
  Reach.step (Reach.refl wInit) (Step.poison wInit 0 rfl)

/-! The claims. -/

/-- Claim C1: for every submitted job, the state stored in the Job Registry
moves only forward along Pending -> Processing -> (Completed | Failed): along
any execution of the pool (submit, claim, the worker's pre-execution update,
the worker's post-execution update, query, shutdown events interleaved in any
order), any registry observation of a job is `statusLE`-below every later
observation, so no state ever reverts backward, and a job observed
`Completed` is never later observed `Failed`, nor the other way round. -/
theorem C1_registry_forward_only (n : Nat) (init s t : PoolState)
    (evs evs' : List Event) (id : Nat) (m m' : JobMetadata)
    (hb : ThreadPool.build n = Except.ok init)
    (h1 : Reach init evs s) (h2 : Reach s evs' t)
    (hm : regFind s.registry id = some m) (hm' : regFind t.registry id = some m') :
    statusLE m.state m'.state
      ∧ (m.state = JobStatus.Completed → m'.state = JobStatus.Completed)
      ∧ (∀ y, m.state = JobStatus.Failed y → m'.state = JobStatus.Failed y) := by
  have hq := inv_reach (inv_build hb) h1
  obtain ⟨m2, hm2, hle⟩ := reach_mono hq h2 id m hm
  rw [hm'] at hm2
  have hm2' : m' = m2 := Option.some.inj hm2
  subst hm2'
  refine ⟨hle, ?_, ?_⟩
  · intro hc
    rcases hle with heq | hlt
    · rw [← heq, hc]
    · rw [hc] at hlt
      cases hs : m'.state <;> rw [hs] at hlt <;> simp [JobStatus.rank] at hlt
  · intro y hc
    rcases hle with heq | hlt
    · rw [← heq, hc]
    · rw [hc] at hlt
      cases hs : m'.state <;> rw [hs] at hlt <;> simp [JobStatus.rank] at hlt

/-- Witness for C1 on a concrete trace: the job observed `Pending` right
after submission and `Processing` after the worker's pre-execution update. -/
theorem C1_registry_forward_only_witness :
    statusLE JobStatus.Pending JobStatus.Processing :=
  (C1_registry_forward_only 1 wInit wS1 wS3 _ _ 0
    ⟨JobStatus.Pending, none⟩ ⟨JobStatus.Processing, none⟩
    wBuild wReach1 wReach13 rfl rfl).1

/-- Claim C2: for every job a worker executes, the post-execution registry
update (lines 215-237) records the payload's outcome: success text `x` gives
state `Completed` with `result = x`; failure text `y` gives state `Failed y`
with `result = y`.  The hypothesis places the worker right after running the
payload, and the conclusion evaluates its registry update. -/
theorem C2_worker_records_outcome (n : Nat) (init s : PoolState) (evs : List Event)
    (w id : Nat) (res : Except String String)
    (hb : ThreadPool.build n = Except.ok init) (h : Reach init evs s)
    (hw : s.workers.get? w = some (WorkerState.ran id res)) :
    (∀ x, res = Except.ok x →
        regFind (postUpdate s.registry id res) id
          = some ⟨JobStatus.Completed, some x⟩) ∧
    (∀ y, res = Except.error y →
        regFind (postUpdate s.registry id res) id
          = some ⟨JobStatus.Failed y, some y⟩) := by
  have hq := inv_reach (inv_build hb) h
  have hfind := hq.ranProcessing w id res hw
  constructor
  · intro x hx
    subst hx
    rw [postUpdate_eq, regFind_update_self, hfind]
    rfl
  · intro y hy
    subst hy
    rw [postUpdate_eq, regFind_update_self, hfind]
    rfl

/-- Witness for C2: the concrete worker that ran the payload returning
`Ok("x")` records `Completed` with result `"x"`. -/
theorem C2_worker_records_outcome_witness :
    regFind (postUpdate wS3.registry 0 (Except.ok "x")) 0
      = some ⟨JobStatus.Completed, some "x"⟩ :=
  (C2_worker_records_outcome 1 wInit wS3 _ 0 0 (Except.ok "x")
    wBuild wReach03 rfl).1 "x" rfl

/-- Claim C3: `build(0)` always fails with the `InvalidSize` error
(`PoolCreateError::NonValueZeroAllowed`) and no pool is created; for every
`n >= 1`, `build(n)` succeeds and the returned pool's Job Registry is empty
(and it has `n` workers). -/
theorem C3_build_size :
    ThreadPool.build 0 = Except.error PoolCreateError.NonValueZeroAllowed
      ∧ ∀ n, 1 ≤ n → ∃ p, ThreadPool.build n = Except.ok p
          ∧ p.registry = [] ∧ p.workers.length = n := by
  constructor
  · rfl
  · intro n hn
    refine ⟨{ nextId := 0, registry := [], queue := [], senderAlive := true
              workers := List.replicate n WorkerState.idle }, ?_, rfl, by simp⟩
    unfold ThreadPool.build
    rw [if_neg (by omega)]

/-- Witness for C3 at `n = 3`. -/
theorem C3_build_size_witness :
    ∃ p, ThreadPool.build 3 = Except.ok p ∧ p.registry = [] ∧ p.workers.length = 3 :=
  C3_build_size.2 3 (by omega)

/-- Counterexample to claim C4 as stated: a submit on a pool whose only
worker has exited still generates the id, inserts the `Pending` entry and
returns the id — but the job descriptor is NOT pushed onto the Work Queue
(the failed `send` drops it, lines 146-150), so "every call to submit ...
pushes the job descriptor onto the Work Queue" is false at this input. -/
theorem C4_counterexample :
    (ThreadPool.execute wDead (Except.ok "x")).1 = 0
      ∧ regFind (ThreadPool.execute wDead (Except.ok "x")).2.registry 0
          = some ⟨JobStatus.Pending, none⟩
      ∧ (ThreadPool.execute wDead (Except.ok "x")).2.queue = [] :=
  ⟨rfl, rfl, rfl⟩

/-- Amended claim C4: when the channel still has a live consumer, `execute` returns
the fresh identifier `s.nextId` (fresh: absent from the registry and never
returned by an earlier submit), the registry of the post-state holds
`{ state: Pending, result: none }` at that identifier, and the job descriptor
was pushed onto the Work Queue.  The insert happens inside `execute`, before
it returns, so the entry exists from the instant `submit` returns. -/
theorem C4_submit_registers_and_enqueues (n : Nat) (init s : PoolState)
    (evs : List Event) (payload : Except String String)
    (hb : ThreadPool.build n = Except.ok init) (h : Reach init evs s)
    (hsend : s.senderAlive = true) (hcons : consumerAlive s.workers = true) :
    (ThreadPool.execute s payload).1 = s.nextId
      ∧ regFind s.registry s.nextId = none
      ∧ s.nextId ∉ submittedIds evs
      ∧ regFind (ThreadPool.execute s payload).2.registry s.nextId
          = some ⟨JobStatus.Pending, none⟩
      ∧ (ThreadPool.execute s payload).2.queue = s.queue ++ [⟨s.nextId, payload⟩] := by
  have hq := inv_reach (inv_build hb) h
  refine ⟨rfl, regFind_fresh s hq s.nextId (Nat.le_refl _), ?_, ?_, ?_⟩
  · intro hmem
    have ht := traceCounts_reach hb h
    have h0 : (submittedIds evs).count s.nextId = 0 := ht.submitHigh s.nextId (Nat.le_refl _)
    have hpos := List.count_pos_iff.mpr hmem
    omega
  · show regFind (regInsert s.registry s.nextId ⟨JobStatus.Pending, none⟩) s.nextId = _
    exact regFind_insert_self _ _ _
  · rw [execute_queue, if_pos (by simp [hsend, hcons])]

/-- Witness for C4 on the concrete one-worker pool after one submission. -/
theorem C4_submit_registers_and_enqueues_witness :
    regFind (ThreadPool.execute wS1 (Except.error "boom")).2.registry 1
      = some ⟨JobStatus.Pending, none⟩ :=
  (C4_submit_registers_and_enqueues 1 wInit wS1 _ (Except.error "boom")
    wBuild wReach1 rfl rfl).2.2.2.1

/-- Claim C5: when no consumer remains (every worker has exited), `execute`
does not raise the failure to the caller: it still returns the fresh
identifier, the queue is left unchanged (the send failed and was only
logged), the registry entry is `{ state: Pending, result: none }`, and along
every possible continuation of the system that entry stays exactly
`{ state: Pending, result: none }` forever. -/
theorem C5_delivery_failure_pending_forever (n : Nat) (init s : PoolState)
    (evs : List Event) (payload : Except String String)
    (hb : ThreadPool.build n = Except.ok init) (h : Reach init evs s)
    (hdead : consumerAlive s.workers = false) :
    (ThreadPool.execute s payload).1 = s.nextId
      ∧ (ThreadPool.execute s payload).2.queue = s.queue
      ∧ regFind (ThreadPool.execute s payload).2.registry s.nextId
          = some ⟨JobStatus.Pending, none⟩
      ∧ ∀ evs' t, Reach (ThreadPool.execute s payload).2 evs' t →
          regFind t.registry s.nextId = some ⟨JobStatus.Pending, none⟩ := by
  have hq := inv_reach (inv_build hb) h
  have hfroz : Frozen (ThreadPool.execute s payload).2 s.nextId := by
    refine ⟨?_, ?_, ?_, ?_, ?_⟩
    · show regFind (regInsert s.registry s.nextId ⟨JobStatus.Pending, none⟩) s.nextId = _
      exact regFind_insert_self _ _ _
    · show ((ThreadPool.execute s payload).2.queue.map Job.id).count s.nextId = 0
      rw [execute_queue, if_neg (by simp [hdead])]
      exact queueOcc_eq_zero s hq s.nextId (Nat.le_refl _)
    · exact claimedOcc_eq_zero s hq s.nextId (Nat.le_refl _)
    · exact ranOcc_eq_zero s hq s.nextId (Nat.le_refl _)
    · show s.nextId < s.nextId + 1
      omega
  refine ⟨rfl, ?_, hfroz.1, ?_⟩
  · rw [execute_queue, if_neg (by simp [hdead])]
  · intro evs' t hreach
    exact (frozen_reach hreach hfroz).1

/-- Witness for C5: a pool whose only worker exited; the submitted job's
entry is Pending and stays Pending. -/
theorem C5_delivery_failure_pending_forever_witness :
    regFind (ThreadPool.execute wDead (Except.ok "x")).2.registry 0
      = some ⟨JobStatus.Pending, none⟩ :=
  (C5_delivery_failure_pending_forever 1 wInit wDead _ (Except.ok "x")
    wBuild wReachDead rfl).2.2.2 [] _ (Reach.refl _)

/-- Claim C6: a `query` step returns exactly the current registry binding —
a copy of the `JobMetadata` when the id is present, `none` ("not found") when
it is unknown — and leaves the whole pool state (in particular the Job
Registry) unchanged. -/
theorem C6_query_snapshot (s t : PoolState) (id : Nat) (res : Option JobMetadata)
    (h : Step s (Event.query id res) t) :
    t = s ∧ res = get_job_metadata s id
      ∧ ((∃ m, regFind s.registry id = some m ∧ res = some m)
          ∨ (regFind s.registry id = none ∧ res = none)) := by
  cases h with
  | query =>
    refine ⟨rfl, rfl, ?_⟩
    cases hfind : regFind s.registry id with
    | some m =>
      refine Or.inl ⟨m, rfl, ?_⟩
      show regFind s.registry id = some m
      exact hfind
    | none =>
      refine Or.inr ⟨rfl, ?_⟩
      show regFind s.registry id = none
      exact hfind

/-- Witness for C6 on the concrete pool: querying the submitted job. -/
theorem C6_query_snapshot_witness :
    wS1 = wS1 ∧ get_job_metadata wS1 0 = get_job_metadata wS1 0
      ∧ ((∃ m, regFind wS1.registry 0 = some m ∧ get_job_metadata wS1 0 = some m)
          ∨ (regFind wS1.registry 0 = none ∧ get_job_metadata wS1 0 = none)) :=
  C6_query_snapshot wS1 wS1 0 (get_job_metadata wS1 0) (Step.query wS1 0)

/-- Counterexample to claim C7 as stated: when the Job Registry lock is
unusable, the worker's registry access (`jobs.lock().unwrap()`, lines
206-211 and 215-237) panics — it is not the logged, graceful loop exit the
claim describes — and the submitter's own registry access (lines 141-144)
panics as well, so the failure does escalate to submitters. -/
theorem C7_counterexample :
    workerPreUpdateLocked LockResult.poisoned 0 ≠ LockedOutcome.logAndExitLoop
      ∧ workerPreUpdateLocked LockResult.poisoned 0 = LockedOutcome.panicked
      ∧ workerPostUpdateLocked LockResult.poisoned 0 (Except.ok "x")
          = LockedOutcome.panicked
      ∧ executeInsertLocked LockResult.poisoned 0 = LockedOutcome.panicked := by
  refine ⟨?_, rfl, rfl, rfl⟩
  intro hc
  exact LockedOutcome.noConfusion hc

/-- Amended claim C7: the graceful log-and-exit path belongs to the Work
Queue consumer lock (`receiver.lock()`, lines 195-201) — on poisoning the
worker logs and terminates its own loop, without retrying and without
escalating to other workers.  When the Job Registry lock is unusable, every
access unwraps and panics: the worker's pre- and post-execution updates, the
submitter's insert, and the metadata query. -/
theorem C7_amended_lock_failure :
    workerRecvLock LockResult.poisoned = LockedOutcome.logAndExitLoop
      ∧ (∀ id, workerPreUpdateLocked LockResult.poisoned id = LockedOutcome.panicked)
      ∧ (∀ id res, workerPostUpdateLocked LockResult.poisoned id res
          = LockedOutcome.panicked)
      ∧ (∀ id, executeInsertLocked LockResult.poisoned id = LockedOutcome.panicked)
      ∧ (∀ id, getJobMetadataLocked LockResult.poisoned id = LockedOutcome.panicked) :=
  ⟨rfl, fun _ => rfl, fun _ _ => rfl, fun _ => rfl, fun _ => rfl⟩

/-- Claim C8: for one pool instance, the identifiers returned by the
successive `submit` calls of any execution are pairwise distinct, and no
identifier is ever submitted (hence no registry key created) twice. -/
theorem C8_submit_ids_distinct (n : Nat) (init s : PoolState) (evs : List Event)
    (hb : ThreadPool.build n = Except.ok init) (h : Reach init evs s) :
    (submittedIds evs).Nodup ∧ ∀ id, submitCount evs id ≤ 1 := by
  have ht := traceCounts_reach hb h
  exact ⟨List.nodup_iff_count_le_one.mpr (fun a => ht.submitOnce a), ht.submitOnce⟩

/-- Witness for C8 on the concrete four-step trace. -/
theorem C8_submit_ids_distinct_witness :
    (submittedIds [Event.submit 0 (Except.ok "x") true, Event.claim 0 wJob,
      Event.startJob 0 0, Event.finishJob 0 0]).Nodup :=
  (C8_submit_ids_distinct 1 wInit wS4 _ wBuild wReach04).1

/-- Claim C9: every job delivered to the Work Queue is claimed by at most one
worker and its payload runs at most once, in every execution; and in any
execution that ends quiescent (queue drained, every worker idle or exited),
each delivered job was claimed by exactly one worker, its payload ran exactly
once, and its outcome was recorded exactly once. -/
theorem C9_claimed_and_executed_once (n : Nat) (init s : PoolState) (evs : List Event)
    (hb : ThreadPool.build n = Except.ok init) (h : Reach init evs s) :
    (∀ id, claimCount evs id ≤ 1 ∧ startCount evs id ≤ 1 ∧ finishCount evs id ≤ 1)
      ∧ (quiescent s → ∀ id, deliveredCount evs id = 1 →
          claimCount evs id = 1 ∧ startCount evs id = 1 ∧ finishCount evs id = 1) := by
  have ht := traceCounts_reach hb h
  constructor
  · intro id
    have h1 := ht.deliverEq id
    have h2 := ht.claimEq id
    have h3 := ht.startEq id
    have h4 := ht.submitOnce id
    have h5 := deliver_le_submit evs id
    omega
  · rintro ⟨hqe, hws⟩ id hdel
    have hq0 : queueOcc s id = 0 := by
      show (s.queue.map Job.id).count id = 0
      rw [hqe]
      rfl
    have hc0 : claimedOcc s id = 0 := by
      refine sum_map_eq_zero _ _ ?_
      intro x hx
      rcases hws x hx with rfl | rfl <;> rfl
    have hr0 : ranOcc s id = 0 := by
      refine sum_map_eq_zero _ _ ?_
      intro x hx
      rcases hws x hx with rfl | rfl <;> rfl
    have h1 := ht.deliverEq id
    have h2 := ht.claimEq id
    have h3 := ht.startEq id
    omega

/-- Witness for C9: on the complete concrete lifecycle the delivered job was
claimed, run and recorded exactly once. -/
theorem C9_claimed_and_executed_once_witness :
    claimCount [Event.submit 0 (Except.ok "x") true, Event.claim 0 wJob,
        Event.startJob 0 0, Event.finishJob 0 0] 0 = 1
      ∧ startCount [Event.submit 0 (Except.ok "x") true, Event.claim 0 wJob,
          Event.startJob 0 0, Event.finishJob 0 0] 0 = 1
      ∧ finishCount [Event.submit 0 (Except.ok "x") true, Event.claim 0 wJob,
          Event.startJob 0 0, Event.finishJob 0 0] 0 = 1 :=
  (C9_claimed_and_executed_once 1 wInit wS4 _ wBuild wReach04).2
    ⟨rfl, by decide⟩ 0 (by decide)

/-- Claim C10: if a worker claims a job whose identifier is absent from the
Job Registry, both the pre-execution update and the post-execution update
are silent no-ops (the functions are total, so no panic occurs): the registry
is left unchanged and no entry is created, the payload still runs (the
`startJob` step exists and is taken), and the worker returns to its loop
(`idle`) with the rest of the system untouched. -/
theorem C10_absent_id_noop (s : PoolState) (w : Nat) (job : Job)
    (hw : s.workers.get? w = some (WorkerState.claimed job))
    (habs : regFind s.registry job.id = none) :
    preUpdate s.registry job.id = s.registry
      ∧ postUpdate s.registry job.id job.payload = s.registry
      ∧ ∃ s1 s2, Step s (Event.startJob w job.id) s1
          ∧ Step s1 (Event.finishJob w job.id) s2
          ∧ s1.registry = s.registry ∧ s2.registry = s.registry
          ∧ s2.workers.get? w = some WorkerState.idle ∧ s2.queue = s.queue := by
  have h1 : preUpdate s.registry job.id = s.registry := by
    rw [preUpdate_eq]
    exact regUpdate_absent _ _ _ habs
  have h2 : ∀ res, postUpdate s.registry job.id res = s.registry := by
    intro res
    rw [postUpdate_eq]
    exact regUpdate_absent _ _ _ habs
  have hw2 : ({ s with registry := preUpdate s.registry job.id
                       workers := s.workers.set w (WorkerState.ran job.id job.payload) }
        : PoolState).workers.get? w = some (WorkerState.ran job.id job.payload) :=
    get?_set_self _ _ _ _ hw
  refine ⟨h1, h2 _, _, _, Step.startJob s w job hw,
    Step.finishJob _ w job.id job.payload hw2, h1, ?_, ?_, rfl⟩
  · show postUpdate (preUpdate s.registry job.id) job.id job.payload = s.registry
    rw [h1]
    exact h2 _
  · show ((s.workers.set w (WorkerState.ran job.id job.payload)).set
        w WorkerState.idle).get? w = some WorkerState.idle
    exact get?_set_self _ _ _ _ (get?_set_self _ _ _ _ hw)

/-- Witness for C10: a worker holding a claimed job whose id 3 has no
registry entry; both updates leave the empty registry empty. -/
theorem C10_absent_id_noop_witness :
    preUpdate wAbsState.registry 3 = wAbsState.registry
      ∧ postUpdate wAbsState.registry 3 (Except.ok "r") = wAbsState.registry
      ∧ ∃ s1 s2, Step wAbsState (Event.startJob 0 3) s1
          ∧ Step s1 (Event.finishJob 0 3) s2
          ∧ s1.registry = wAbsState.registry ∧ s2.registry = wAbsState.registry
          ∧ s2.workers.get? 0 = some WorkerState.idle ∧ s2.queue = wAbsState.queue :=
  C10_absent_id_noop wAbsState 0 ⟨3, Except.ok "r"⟩ rfl rfl

end Harbor
